import Mathlib

/-!
Verification of the portfolio site's client script (`script.js`).

The development shallowly embeds the script's data model and the operations
of its overlay controller, grid interaction layer, detail renderer, image
fallback helper and embedded-JSON loader, and proves the specified
properties about them.  Strings are modelled as `List Char` (`Str`), DOM
elements as natural-number identifiers, and timer callbacks as an explicit
pending-timer list.  Purely visual side effects (CSS classes that no claim
mentions, reveal animations, network preloads) are not represented; each
definition's doc comment names the source function and lines it embeds.
-/

namespace Portfolio

/-- Strings are modelled as lists of characters. -/
abbrev Str := List Char

/-- One entry of a project's `custom_fields` array (author-declared
label/value meta fields).  `id` is `some s` when the JS value is a string;
an empty `Str` models an absent/empty (falsy) value. -/
structure CustomField where
  id : Option Str
  label : Str
  value : Str
deriving DecidableEq

/-- A parsed project record, with the fields the script reads.  Absent or
empty (falsy) string fields are both modelled as `[]`, matching the
script's uniform truthiness tests; `index` is the stringified form of the
record's `index` member as consumed by `normalizeProjectKey`. -/
structure Project where
  title : Str
  slug : Str := []
  display_title : Str := []
  index : Str := []
  location : Str := []
  duration : Str := []
  program : Str := []
  studio : Str := []
  year : Str := []
  medium : Str := []
  series : Str := []
  team : Str := []
  custom_fields : List CustomField := []
  meta_field_order : List Str := []
  description : Str := []
  description_ko : Str := []
deriving DecidableEq

/-- JavaScript array indexing `l[i]` for a possibly negative or
out-of-range `Int` index: `undefined` (`none`) outside `[0, length)`. -/
def jsIndex (l : List Project) (i : Int) : Option Project :=
  if h : 0 ≤ i ∧ i < l.length then some (l.get ⟨i.toNat, by omega⟩) else none

/-- The page's mutable state: the module-scoped variables of `script.js`
(`currentProjectIndex`, `isOverlayOpen`, `lastFocusedElement`,
`armedGridIndex`, `armedGridResetTimer`) together with the DOM facts the
claims talk about.  `activeElement` is `document.activeElement`;
`renderedProject` abstracts the overlay's content region to the identity
of the record last rendered into it; `armedClasses` is the set of grid
containers carrying the `grid-item--armed` class; `pendingTimers` holds
the ids of scheduled, uncancelled, unfired timeouts and `nextTimerId`
generates fresh ids; `pendingFocusCloseBtn` records the 100ms
focus-after-open timeout scheduled by `openProject`. -/
structure PageState where
  projectsData : List Project
  overlayPresent : Bool
  currentProjectIndex : Int
  isOverlayOpen : Bool
  lastFocusedElement : Option Nat
  activeElement : Option Nat
  renderedProject : Option Project
  overlayScrollTop : Nat
  prevBtnDisabled : Bool
  nextBtnDisabled : Bool
  pendingFocusCloseBtn : Bool
  numGridContainers : Nat
  armedGridIndex : Int
  armedGridResetTimer : Option Nat
  armedClasses : List Nat
  pendingTimers : List Nat
  nextTimerId : Nat
deriving DecidableEq

/-- Embeds `clearArmedGridItem` (part_001 lines 188-201): cancel the
pending auto-disarm timeout, then, if a tile is armed, drop its
`grid-item--armed` class (when its container exists) and disarm. -/
def clearArmedGridItem (st : PageState) : PageState :=
  let st := match st.armedGridResetTimer with
    | some t => { st with pendingTimers := st.pendingTimers.erase t, armedGridResetTimer := none }
    | none => st
  if st.armedGridIndex < 0 then st
  else
    let st := if st.armedGridIndex.toNat < st.numGridContainers then
        { st with armedClasses := st.armedClasses.erase st.armedGridIndex.toNat }
      else st
    { st with armedGridIndex := -1 }

/-- Embeds `armGridItem` (part_001 lines 203-214): disarm whatever was
armed, and if the container at `index` exists, add its armed class, record
it as armed and schedule a fresh 2400ms auto-disarm timeout. -/
def armGridItem (index : Nat) (st : PageState) : PageState :=
  let st := clearArmedGridItem st
  if index < st.numGridContainers then
    { st with
      armedClasses := index :: st.armedClasses,
      armedGridIndex := (index : Int),
      armedGridResetTimer := some st.nextTimerId,
      pendingTimers := st.pendingTimers ++ [st.nextTimerId],
      nextTimerId := st.nextTimerId + 1 }
  else st

/-- Firing of a scheduled auto-disarm timeout `t`: a cancelled or already
fired timer (one absent from `pendingTimers`) runs no callback; a pending
one is consumed and runs `clearArmedGridItem` (the callback at part_001
lines 211-213). -/
def fireArmTimer (t : Nat) (st : PageState) : PageState :=
  if t ∈ st.pendingTimers then
    clearArmedGridItem { st with pendingTimers := st.pendingTimers.erase t }
  else st

/-- Embeds the guard and content effect of `renderProjectDetail` (part_001
lines 740-741 and 948): with the overlay present and a defined project, the
overlay content region is replaced by a render of that record (content
abstracted to the record's identity; the meta-field portion is modelled
separately and exactly by `renderProjectMeta` below). -/
def renderProjectDetailState (p : Option Project) (st : PageState) : PageState :=
  if st.overlayPresent then
    match p with
    | some proj => { st with renderedProject := some proj }
    | none => st
  else st

/-- Embeds `updateNavButtons` (part_001 lines 704-714). -/
def updateNavButtons (st : PageState) : PageState :=
  { st with
    prevBtnDisabled := st.currentProjectIndex = 0,
    nextBtnDisabled := st.currentProjectIndex = (st.projectsData.length : Int) - 1 }

/-- Embeds `openProject` (part_001 lines 623-656).  Note the source guards
only on the overlay element and a nonempty project list — `index` itself is
never bounds-checked; `projectsData[index]` is `undefined` out of range,
which `preloadProjectHeroImage` and `renderProjectDetail` each tolerate by
their own guards, so no exception path exists. -/
def openProject (index : Int) (st : PageState) : PageState :=
  if ¬st.overlayPresent ∨ st.projectsData = [] then st
  else
    let st := clearArmedGridItem st
    let st := { st with currentProjectIndex := index, lastFocusedElement := st.activeElement }
    let st := renderProjectDetailState (jsIndex st.projectsData index) st
    let st := updateNavButtons st
    let st := { st with isOverlayOpen := true }
    let st := { st with pendingFocusCloseBtn := true }
    { st with overlayScrollTop := 0 }

/-- Embeds `closeOverlay` (part_001 lines 658-669): no-op unless the
overlay exists and is open; otherwise mark closed and restore focus to
`lastFocusedElement` when one was captured. -/
def closeOverlay (st : PageState) : PageState :=
  if ¬st.overlayPresent ∨ ¬st.isOverlayOpen then st
  else
    let st := { st with isOverlayOpen := false }
    match st.lastFocusedElement with
    | some e => { st with activeElement := some e }
    | none => st

/-- Embeds `scrollOverlayToTop` (part_001 lines 697-702). -/
def scrollOverlayToTop (st : PageState) : PageState :=
  { st with overlayScrollTop := 0 }

/-- Embeds `goToPrevProject` (part_001 lines 671-682): entirely skipped
unless `currentProjectIndex > 0`. -/
def goToPrevProject (st : PageState) : PageState :=
  if st.currentProjectIndex > 0 then
    let st := { st with currentProjectIndex := st.currentProjectIndex - 1 }
    let st := renderProjectDetailState (jsIndex st.projectsData st.currentProjectIndex) st
    let st := updateNavButtons st
    scrollOverlayToTop st
  else st

/-- Embeds `goToNextProject` (part_001 lines 684-695): entirely skipped
unless `currentProjectIndex < projectsData.length - 1`. -/
def goToNextProject (st : PageState) : PageState :=
  if st.currentProjectIndex < (st.projectsData.length : Int) - 1 then
    let st := { st with currentProjectIndex := st.currentProjectIndex + 1 }
    let st := renderProjectDetailState (jsIndex st.projectsData st.currentProjectIndex) st
    let st := updateNavButtons st
    scrollOverlayToTop st
  else st

/-- Embeds the callback chain `tryLoad` of `preloadImageSequence`
(part_001 lines 504-516): the oracle `loads` says which URLs load
successfully; the result is the resolved source, `[]` on exhaustion. -/
def preloadTryLoad (loads : Str → Bool) : List Str → Str
  | [] => []
  | c :: rest => if loads c then c else preloadTryLoad loads rest

/-- Embeds `preloadImageSequence` (part_001 lines 500-518), including its
empty-list early resolution. -/
def preloadImageSequence (loads : Str → Bool) (candidates : List Str) : Str :=
  if candidates = [] then [] else preloadTryLoad loads candidates

/-- The grid-thumbnail visual state `loadThumbnail` mutates: the inline
`background-image`, and the `grid-thumb--placeholder` / `loaded` classes. -/
structure ThumbState where
  backgroundImage : Option Str
  placeholderClass : Bool
  loadedClass : Bool
deriving DecidableEq

/-- Embeds the callback chain `tryNextUrl` of `loadThumbnail` (part_001
lines 599-616) over an already-built candidate list.  The first component
collects every URL ever assigned to the thumb's `background-image` (shown),
so that the theorems can speak about URLs never shown. -/
def loadThumbnailTryNext (loads : Str → Bool) : List Str → ThumbState → List Str × ThumbState
  | [], st => ([], { st with placeholderClass := true, loadedClass := true })
  | c :: rest, st =>
    if loads c then ([c], { st with backgroundImage := some c, loadedClass := true })
    else loadThumbnailTryNext loads rest st

/-- Embeds `normalizeProjectKey` (part_001 lines 236-241): lowercase,
replace `&` with `and`, drop every character outside `[a-z0-9]`. -/
def normalizeProjectKey (value : Str) : Str :=
  ((value.map Char.toLower).flatMap fun c => if c = '&' then "and".data else [c]).filter
    fun c => ('a' ≤ c && c ≤ 'z') || ('0' ≤ c && c ≤ '9')

/-- The per-record predicate of `findProjectIndexFromParam` (part_001
lines 284-292): one of slug, display title, title or index normalizes to
the normalized query value. -/
def projectKeyMatches (normalizedParam : Str) (p : Project) : Bool :=
  [p.slug, p.display_title, p.title, p.index].any
    fun k => decide (normalizeProjectKey k = normalizedParam)

/-- Embeds `findProjectIndexFromParam` (part_001 lines 280-293): `-1` when
the query value normalizes to the empty string or nothing matches. -/
def findProjectIndexFromParam (projects : List Project) (param : Str) : Int :=
  let normalizedParam := normalizeProjectKey param
  if normalizedParam = [] then -1
  else match projects.findIdx? (projectKeyMatches normalizedParam) with
    | some i => (i : Int)
    | none => -1

/-- Embeds `openProjectFromQueryParam` (part_001 lines 295-310), returning
the index handed to the scheduled `openProject` call, or `none` when no
open is scheduled.  `projectParam`/`autopopupParam` are the raw
`?project=`/`?autopopup=` values (`none` when absent); a present-but-empty
`project=` value is falsy in the source guard, like an absent one. -/
def openProjectFromQueryParam (overlayPresent : Bool) (projects : List Project)
    (projectParam : Option Str) (autopopupParam : Option Str) : Option Int :=
  if ¬overlayPresent ∨ projects = [] then none
  else
    let forceOpen := autopopupParam = some "1".data
    if (projectParam = none ∨ projectParam = some []) ∧ ¬forceOpen then none
    else
      let projectIndex := findProjectIndexFromParam projects (projectParam.getD [])
      if projectIndex < 0 then
        if ¬forceOpen then none else some 0
      else some projectIndex

/-- The two language-toggle buttons of the detail header. -/
inductive Lang
  | en
  | kr
deriving DecidableEq

/-- Visibility state of the detail description block: which of
`.description-en` / `.description-ko` exist in the rendered content and
which are visible, plus the active toggle button. -/
structure LangState where
  enPresent : Bool
  koPresent : Bool
  enVisible : Bool
  koVisible : Bool
  activeLang : Lang
deriving DecidableEq

/-- The description visibility produced by `renderProjectDetail`'s template
(part_001 lines 973-977): the English paragraph renders visible when
`description` is present; the Korean paragraph renders with
`display: none`. -/
def renderLangState (p : Project) : LangState :=
  { enPresent := decide (p.description ≠ [])
    koPresent := decide (p.description_ko ≠ [])
    enVisible := decide (p.description ≠ [])
    koVisible := false
    activeLang := Lang.en }

/-- Embeds the click handler of `setupLangToggle` (part_001 lines
1065-1083): EN shows the English text only; KR shows English plus Korean;
each branch guards on the paragraph's existence. -/
def clickLang (st : LangState) (l : Lang) : LangState :=
  let st := { st with activeLang := l }
  match l with
  | .en =>
    let st := if st.enPresent then { st with enVisible := true } else st
    if st.koPresent then { st with koVisible := false } else st
  | .kr =>
    let st := if st.enPresent then { st with enVisible := true } else st
    if st.koPresent then { st with koVisible := true } else st

/-- A sequence of language-toggle clicks applied in order. -/
def applyClicks (clicks : List Lang) (st : LangState) : LangState :=
  clicks.foldl clickLang st

/-- JS `String.prototype.trim` on a label (ASCII whitespace). -/
def trimStr (s : Str) : Str :=
  ((s.dropWhile Char.isWhitespace).reverse.dropWhile Char.isWhitespace).reverse

/-- JS `String.prototype.toUpperCase` (ASCII range, as the data uses). -/
def toUpperStr (s : Str) : Str := s.map Char.toUpper

/-- The `baseMetaFields` table of `renderProjectDetail` (part_001 lines
751-756): key and display label. -/
def baseMetaFields : List (Str × Str) :=
  [("location".data, "LOCATION".data), ("duration".data, "DURATION".data),
   ("program".data, "PROGRAM".data), ("studio".data, "STUDIO".data)]

/-- The `reservedMetaLabels` set (part_001 lines 757-762). -/
def reservedMetaLabels : List Str :=
  ["LOCATION".data, "DURATION".data, "PROGRAM".data, "STUDIO".data]

/-- Lookup in `baseMetaFieldMap` (part_001 line 763). -/
def baseMetaLabel (key : Str) : Option Str :=
  (baseMetaFields.find? fun kv => decide (kv.1 = key)).map fun kv => kv.2

/-- The `project[key]` read for a base meta key (part_001 line 849). -/
def baseMetaValue (p : Project) (key : Str) : Str :=
  if key = "location".data then p.location
  else if key = "duration".data then p.duration
  else if key = "program".data then p.program
  else if key = "studio".data then p.studio
  else []

/-- A custom meta field after the normalization of part_001 lines 770-785:
resolved id, its `custom:`-prefixed token, and its alias set. -/
structure ResolvedCustomField where
  id : Str
  token : Str
  label : Str
  value : Str
  aliases : List Str
deriving DecidableEq

/-- Embeds the `customMetaFields` construction (part_001 lines 764-786):
filter out fields with a falsy label or value or a reserved label, then
attach ids (declared string id, else `index-<position in the filtered
list>`), tokens and aliases. -/
def resolvedCustomFieldsOf (p : Project) : List ResolvedCustomField :=
  (p.custom_fields.filter fun f =>
      decide (f.label ≠ []) && decide (f.value ≠ []) &&
        decide (toUpperStr (trimStr f.label) ∉ reservedMetaLabels)).enum.map
    fun nf =>
      let fieldId := match nf.2.id with
        | some s => if s ≠ [] then s else "index-".data ++ (Nat.repr nf.1).data
        | none => "index-".data ++ (Nat.repr nf.1).data
      let normalizedLabel := toUpperStr (trimStr nf.2.label)
      { id := fieldId
        token := "custom:".data ++ fieldId
        label := nf.2.label
        value := nf.2.value
        aliases := [fieldId, "custom:".data ++ fieldId,
          if normalizedLabel ≠ [] then "label:".data ++ normalizedLabel else []] }

/-- Embeds the legacy `project.team` appending (part_001 lines 790-800): a
`TEAM` custom field is appended unless one is already declared. -/
def customMetaFieldsOf (p : Project) : List ResolvedCustomField :=
  let customs := resolvedCustomFieldsOf p
  if p.team ≠ [] ∧ ¬∃ f ∈ customs, toUpperStr (trimStr f.label) = "TEAM".data then
    customs ++ [{ id := "legacy-team".data, token := "custom:legacy-team".data
                  label := "TEAM".data, value := p.team
                  aliases := ["legacy-team".data, "custom:legacy-team".data, "label:TEAM".data] }]
  else customs

/-- JS `new Map(entries).get(key)`: with duplicate keys the later entry
wins, as in the `Map` constructor. -/
def jsMapFind (entries : List (Str × ResolvedCustomField)) (key : Str) : Option ResolvedCustomField :=
  entries.foldl (fun acc kv => if kv.1 = key then some kv.2 else acc) none

/-- The `customMetaFieldMap` entries (part_001 line 787, updated line 799). -/
def customMetaFieldMap (p : Project) : List (Str × ResolvedCustomField) :=
  (customMetaFieldsOf p).map fun f => (f.token, f)

/-- Embeds `resolveCustomMetaField` (part_001 lines 802-820). -/
def resolveCustomMetaField (p : Project) (key : Str) : Option ResolvedCustomField :=
  let customs := customMetaFieldsOf p
  let cmap := customMetaFieldMap p
  let normalizedKey := trimStr key
  if normalizedKey = [] then none
  else match jsMapFind cmap normalizedKey with
  | some f => some f
  | none =>
    let prefixedKey :=
      if normalizedKey.take 7 = "custom:".data then normalizedKey
      else "custom:".data ++ normalizedKey
    match jsMapFind cmap prefixedKey with
    | some f => some f
    | none =>
      let normalizedLabelKey :=
        if normalizedKey.take 6 = "label:".data then
          "label:".data ++ toUpperStr (normalizedKey.drop 6)
        else "label:".data ++ toUpperStr normalizedKey
      customs.find? fun f =>
        decide (normalizedKey ∈ f.aliases) || decide (prefixedKey ∈ f.aliases) ||
          decide (normalizedLabelKey ∈ f.aliases)

/-- Embeds the `orderedMetaKeys` construction (part_001 lines 788 and
822-844): keys from `meta_field_order` (base keys kept, custom references
normalized to their token, unknowns dropped, duplicates skipped), then the
remaining base keys, then the remaining custom tokens. -/
def orderedMetaKeysOf (p : Project) : List Str :=
  let step := fun (acc : List Str) (key : Str) =>
    let normalizedKey :=
      match resolveCustomMetaField p key with
      | some cf => if (baseMetaLabel key).isSome then key else cf.token
      | none => key
    if ((baseMetaLabel normalizedKey).isSome || (jsMapFind (customMetaFieldMap p) normalizedKey).isSome)
        && !(decide (normalizedKey ∈ acc)) then acc ++ [normalizedKey]
    else acc
  let ordered := p.meta_field_order.foldl step []
  let ordered := baseMetaFields.foldl
    (fun acc kv => if decide (kv.1 ∈ acc) then acc else acc ++ [kv.1]) ordered
  (customMetaFieldsOf p).foldl
    (fun acc f => if decide (f.token ∈ acc) then acc else acc ++ [f.token]) ordered

/-- Embeds the meta-field emission of `renderProjectDetail` (part_001
lines 846-897) as the ordered list of (label, value) meta items: the
ordered keys (base fields skipped when their value is falsy, custom fields
skipped when unknown or with a falsy value), then YEAR, MEDIUM and SERIES
when present.  The HTML wrapping and the inline-markup translation of the
values are abstracted away; order and omission are preserved exactly. -/
def renderMetaItem (p : Project) (key : Str) : List (Str × Str) :=
  match baseMetaLabel key with
  | some label =>
    let value := baseMetaValue p key
    if value = [] then [] else [(label, value)]
  | none =>
    match jsMapFind (customMetaFieldMap p) key with
    | some f => if f.value = [] then [] else [(f.label, f.value)]
    | none => []

/-- See `renderMetaItem` (the body of the `orderedMetaKeys.forEach` at
part_001 lines 846-870) and the YEAR/MEDIUM/SERIES tail (lines 874-897). -/
def renderProjectMeta (p : Project) : List (Str × Str) :=
  ((orderedMetaKeysOf p).flatMap (renderMetaItem p))
  ++ ((if p.year ≠ [] then [("YEAR".data, p.year)] else [])
  ++ ((if p.medium ≠ [] then [("MEDIUM".data, p.medium)] else [])
  ++ (if p.series ≠ [] then [("SERIES".data, p.series)] else [])))

/-- The meta-field order asserted by the claim's spec sentence (base
fields, then YEAR/MEDIUM/SERIES, then the custom fields in author-declared
order, empties omitted) — a spec-side definition stated from the spec's
words, used only for comparison with `renderProjectMeta`. -/
def specClaimedMetaOrder (p : Project) : List (Str × Str) :=
  (baseMetaFields.flatMap fun kv =>
    let v := baseMetaValue p kv.1
    if v = [] then [] else [(kv.2, v)])
  ++ ((if p.year ≠ [] then [("YEAR".data, p.year)] else [])
  ++ ((if p.medium ≠ [] then [("MEDIUM".data, p.medium)] else [])
  ++ ((if p.series ≠ [] then [("SERIES".data, p.series)] else [])
  ++ (customMetaFieldsOf p).map fun f => (f.label, f.value))))

mutual
/-- JSON values as consumed from the embedded payload (numbers are
modelled as integers: the payload's numeric fields are integral, and
float syntax is outside a shallow embedding). -/
inductive Json where
  | null : Json
  | bool (b : Bool) : Json
  | num (n : Int) : Json
  | str (s : Str) : Json
  | arr (elems : JsonList) : Json
  | obj (members : JsonMembers) : Json
/-- A JSON array's element list. -/
inductive JsonList where
  | nil : JsonList
  | cons (hd : Json) (tl : JsonList) : JsonList
/-- A JSON object's member list. -/
inductive JsonMembers where
  | nil : JsonMembers
  | cons (key : Str) (val : Json) (tl : JsonMembers) : JsonMembers
end

/-- Decimal digit character. -/
def digitChar (d : Nat) : Char :=
  match d with
  | 0 => '0' | 1 => '1' | 2 => '2' | 3 => '3' | 4 => '4'
  | 5 => '5' | 6 => '6' | 7 => '7' | 8 => '8' | _ => '9'

/-- Decimal rendering of a natural number. -/
def natDigits (n : Nat) : Str :=
  if n < 10 then [digitChar n]
  else natDigits (n / 10) ++ [digitChar (n % 10)]
termination_by n
decreasing_by exact Nat.div_lt_self (by omega) (by omega)

/-- Decimal rendering of an integer. -/
def intRender (n : Int) : Str :=
  if n < 0 then '-' :: natDigits n.natAbs else natDigits n.toNat

/-- String-content escaping as the upstream templating step emits it: only
quotes and backslashes are escaped; newlines (and any carriage returns)
appear raw. -/
def relEscChar (c : Char) : Str :=
  if c = '"' then ['\\', '"'] else if c = '\\' then ['\\', '\\'] else [c]

/-- Strict JSON string-content escaping: additionally `\n` for newlines. -/
def strictEscChar (c : Char) : Str :=
  if c = '"' then ['\\', '"'] else if c = '\\' then ['\\', '\\']
  else if c = '\n' then ['\\', 'n'] else [c]

mutual
/-- Rendering of a JSON value with a given string-content escaper (no
inter-token whitespace, as the embedded payload carries none outside
string values). -/
def renderJson (esc : Char → Str) : Json → Str
  | .null => "null".data
  | .bool true => "true".data
  | .bool false => "false".data
  | .num n => intRender n
  | .str s => '"' :: s.flatMap esc ++ ['"']
  | .arr es => '[' :: renderJsonList esc es ++ [']']
  | .obj ms => '{' :: renderJsonMembers esc ms ++ ['}']
/-- Comma-separated rendering of array elements. -/
def renderJsonList (esc : Char → Str) : JsonList → Str
  | .nil => []
  | .cons v .nil => renderJson esc v
  | .cons v (.cons w tl) => renderJson esc v ++ ',' :: renderJsonList esc (.cons w tl)
/-- Comma-separated rendering of object members. -/
def renderJsonMembers (esc : Char → Str) : JsonMembers → Str
  | .nil => []
  | .cons k v .nil => '"' :: k.flatMap esc ++ '"' :: ':' :: renderJson esc v
  | .cons k v (.cons k2 v2 tl) =>
    '"' :: k.flatMap esc ++ '"' :: ':' :: renderJson esc v ++ ',' ::
      renderJsonMembers esc (.cons k2 v2 tl)
end

/-- The payload as produced upstream: well-formed JSON except that string
contents appear with raw newlines (and possibly raw carriage returns). -/
def renderRelaxed (v : Json) : Str := renderJson relEscChar v

/-- Standard well-formed JSON rendering of the same value. -/
def renderStrict (v : Json) : Str := renderJson strictEscChar v

/-- The deterministic match of the string-literal regex
`"([^"\\]*(\\.[^"\\]*)*)"` (part_001 line 99) at a position directly after
an opening quote: the matched body and the remainder after the closing
quote, or `none` when no match starts at this quote (the `.` of an escape
pair does not match a newline, and the literal may be unterminated; greedy
matching is forced, since no backtracking choice can reach an alternative
closing quote).  The remainder carries its length bound for termination of
the scanning pass. -/
def matchStringBody : (l : Str) → Option (Str × { r : Str // r.length < l.length })
  | [] => none
  | c :: rest =>
    if c = '"' then some ([], ⟨rest, by simp⟩)
    else if c = '\\' then
      match rest with
      | [] => none
      | d :: rest2 =>
        if d = '\n' then none
        else match matchStringBody rest2 with
          | some (b, r) =>
            some ('\\' :: d :: b, ⟨r.1, by have := r.2; simp only [List.length_cons]; omega⟩)
          | none => none
    else
      match matchStringBody rest with
      | some (b, r) =>
        some (c :: b, ⟨r.1, by have := r.2; simp only [List.length_cons]; omega⟩)
      | none => none

/-- The per-match replacement of part_001 line 100: raw `\n` becomes the
two-character escape `\n`, raw `\r` is deleted, everything else is kept
(the surrounding quotes are unaffected by either replacement). -/
def transformMatch (b : Str) : Str :=
  b.flatMap fun c => if c = '\n' then ['\\', 'n'] else if c = '\r' then [] else [c]

/-- Embeds the global regex replace of `init` (part_001 lines 99-101): scan
for string literals; each matched literal is rewritten by
`transformMatch`; at a quote where no literal matches, the quote is
emitted and scanning resumes at the next character. -/
def escapeStringSpans : Str → Str
  | [] => []
  | c :: rest =>
    if c = '"' then
      match matchStringBody rest with
      | some (b, r) => '"' :: transformMatch b ++ '"' :: escapeStringSpans r.1
      | none => '"' :: escapeStringSpans rest
    else c :: escapeStringSpans rest
termination_by l => l.length
decreasing_by
· have := r.2; simp only [List.length_cons]; omega
· simp
· simp

/-- JSON inter-token whitespace. -/
def isJsonWs (c : Char) : Bool := c = ' ' || c = '\t' || c = '\n' || c = '\r'

/-- Skip inter-token whitespace. -/
def skipWs (l : Str) : Str := l.dropWhile isJsonWs

/-- Decimal digit test. -/
def isDigitChar (c : Char) : Bool := '0' ≤ c && c ≤ '9'

/-- Value of a decimal digit character. -/
def digitVal (c : Char) : Nat := c.toNat - 48

/-- Value of a decimal digit string. -/
def digitsVal (ds : Str) : Nat := ds.foldl (fun a c => 10 * a + digitVal c) 0

/-- Hexadecimal digit test. -/
def isHexChar (c : Char) : Bool :=
  ('0' ≤ c && c ≤ '9') || ('a' ≤ c && c ≤ 'f') || ('A' ≤ c && c ≤ 'F')

/-- Value of a hexadecimal digit character. -/
def hexVal (c : Char) : Nat :=
  if '0' ≤ c ∧ c ≤ '9' then c.toNat - 48
  else if 'a' ≤ c ∧ c ≤ 'f' then c.toNat - 87
  else if 'A' ≤ c ∧ c ≤ 'F' then c.toNat - 55
  else 0

/-- The character denoted by a single-character JSON escape. -/
def escCharFor (d : Char) : Option Char :=
  if d = '"' then some '"' else if d = '\\' then some '\\'
  else if d = '/' then some '/' else if d = 'n' then some '\n'
  else if d = 't' then some '\t' else if d = 'r' then some '\r'
  else if d = 'b' then some (Char.ofNat 8) else if d = 'f' then some (Char.ofNat 12)
  else none

/-- JSON string-literal body parser, mirroring `JSON.parse`: stops at the
closing quote, decodes the standard escapes, rejects raw control
characters.  A `\u` escape decodes to the scalar value (lone surrogate
halves, which Lean characters cannot carry, are outside the model). -/
def parseStringLit : Str → Option (Str × Str)
  | [] => none
  | c :: rest =>
    if c = '"' then some ([], rest)
    else if c = '\\' then
      match rest with
      | [] => none
      | d :: rest2 =>
        if d = 'u' then
          match rest2 with
          | h1 :: h2 :: h3 :: h4 :: rest3 =>
            if isHexChar h1 && isHexChar h2 && isHexChar h3 && isHexChar h4 then
              match parseStringLit rest3 with
              | some (s, r) =>
                some (Char.ofNat (((hexVal h1 * 16 + hexVal h2) * 16 + hexVal h3) * 16 + hexVal h4) :: s, r)
              | none => none
            else none
          | _ => none
        else
          match escCharFor d with
          | some e =>
            match parseStringLit rest2 with
            | some (s, r) => some (e :: s, r)
            | none => none
          | none => none
    else if c.toNat < 32 then none
    else
      match parseStringLit rest with
      | some (s, r) => some (c :: s, r)
      | none => none

mutual
/-- Fueled JSON value parser mirroring `JSON.parse`'s grammar for the
payload's values; fuel decreases at every recursive call, and `jsonParse`
supplies sufficient fuel. -/
def parseValue : Nat → Str → Option (Json × Str)
  | 0, _ => none
  | fuel + 1, l =>
    match skipWs l with
    | [] => none
    | c :: rest =>
      if c = 'n' then
        if rest.take 3 = "ull".data then some (.null, rest.drop 3) else none
      else if c = 't' then
        if rest.take 3 = "rue".data then some (.bool true, rest.drop 3) else none
      else if c = 'f' then
        if rest.take 4 = "alse".data then some (.bool false, rest.drop 4) else none
      else if c = '"' then
        match parseStringLit rest with
        | some (s, r) => some (.str s, r)
        | none => none
      else if c = '[' then
        let r1 := skipWs rest
        if r1.head? = some ']' then some (.arr .nil, r1.tail)
        else
          match parseElems fuel r1 with
          | some (es, r) => some (.arr es, r)
          | none => none
      else if c = '{' then
        let r1 := skipWs rest
        if r1.head? = some '}' then some (.obj .nil, r1.tail)
        else
          match parseMembers fuel r1 with
          | some (ms, r) => some (.obj ms, r)
          | none => none
      else if c = '-' then
        match rest.span isDigitChar with
        | ([], _) => none
        | (ds, r) => some (.num (-(digitsVal ds : Int)), r)
      else if isDigitChar c then
        match (c :: rest).span isDigitChar with
        | (ds, r) => some (.num (digitsVal ds : Int), r)
      else none
/-- Parser for the elements of a nonempty array, consuming the closing
bracket. -/
def parseElems : Nat → Str → Option (JsonList × Str)
  | 0, _ => none
  | fuel + 1, l =>
    match parseValue fuel l with
    | some (v, r) =>
      match skipWs r with
      | c :: r2 =>
        if c = ',' then
          match parseElems fuel r2 with
          | some (es, r3) => some (.cons v es, r3)
          | none => none
        else if c = ']' then some (.cons v .nil, r2)
        else none
      | [] => none
    | none => none
/-- Parser for the members of a nonempty object, consuming the closing
brace. -/
def parseMembers : Nat → Str → Option (JsonMembers × Str)
  | 0, _ => none
  | fuel + 1, l =>
    match skipWs l with
    | c0 :: rest =>
      if c0 = '"' then
        match parseStringLit rest with
        | some (k, r) =>
          match skipWs r with
          | c1 :: r2 =>
            if c1 = ':' then
              match parseValue fuel r2 with
              | some (v, r3) =>
                match skipWs r3 with
                | c2 :: r4 =>
                  if c2 = ',' then
                    match parseMembers fuel r4 with
                    | some (ms, r5) => some (.cons k v ms, r5)
                    | none => none
                  else if c2 = '}' then some (.cons k v .nil, r4)
                  else none
                | [] => none
              | none => none
            else none
          | [] => none
        | none => none
      else none
    | [] => none
end

mutual
/-- Fuel sufficient for `parseValue` on a rendering of the value. -/
def jsize : Json → Nat
  | .null => 1
  | .bool _ => 1
  | .num _ => 1
  | .str _ => 1
  | .arr .nil => 1
  | .arr (.cons v tl) => lsize (.cons v tl) + 2
  | .obj .nil => 1
  | .obj (.cons k v tl) => msize (.cons k v tl) + 2
/-- Fuel sufficient for `parseElems` on a rendering of the elements. -/
def lsize : JsonList → Nat
  | .nil => 0
  | .cons v tl => max (jsize v) (lsize tl + 1)
/-- Fuel sufficient for `parseMembers` on a rendering of the members. -/
def msize : JsonMembers → Nat
  | .nil => 0
  | .cons _ v tl => max (jsize v) (msize tl + 1)
end

/-- Characters a payload string may carry for the round trip: not a raw
control character, or a raw newline or carriage return. -/
def strOkChar (c : Char) : Bool := 32 ≤ c.toNat || c = '\n' || c = '\r'

/-- All characters of the string admissible. -/
def strOk (s : Str) : Bool := s.all strOkChar

mutual
/-- Every string of the value admissible for the round trip. -/
def jsonOk : Json → Bool
  | .null => true
  | .bool _ => true
  | .num _ => true
  | .str s => strOk s
  | .arr es => jsonOkList es
  | .obj ms => jsonOkMembers ms
/-- Elementwise `jsonOk`. -/
def jsonOkList : JsonList → Bool
  | .nil => true
  | .cons v tl => jsonOk v && jsonOkList tl
/-- Memberwise `jsonOk`, keys included. -/
def jsonOkMembers : JsonMembers → Bool
  | .nil => true
  | .cons k v tl => strOk k && jsonOk v && jsonOkMembers tl
end

/-- Deletion of raw carriage returns from a string — the observable effect
of the escaping pass on CR characters inside string literals. -/
def stripCRStr (s : Str) : Str := s.filter fun c => decide (c ≠ '\r')

mutual
/-- Deletion of raw carriage returns from every string of a value. -/
def stripCR : Json → Json
  | .null => .null
  | .bool b => .bool b
  | .num n => .num n
  | .str s => .str (stripCRStr s)
  | .arr es => .arr (stripCRList es)
  | .obj ms => .obj (stripCRMembers ms)
/-- Elementwise `stripCR`. -/
def stripCRList : JsonList → JsonList
  | .nil => .nil
  | .cons v tl => .cons (stripCR v) (stripCRList tl)
/-- Memberwise `stripCR`, keys included. -/
def stripCRMembers : JsonMembers → JsonMembers
  | .nil => .nil
  | .cons k v tl => .cons (stripCRStr k) (stripCR v) (stripCRMembers tl)
end

/-- Characters admissible in a strictly rendered string: not a raw control
character, or a newline (rendered as the `\n` escape). -/
def strOkCharS (c : Char) : Bool := 32 ≤ c.toNat || c = '\n'

/-- All characters of the string admissible after CR deletion. -/
def strOkS (s : Str) : Bool := s.all strOkCharS

mutual
/-- Every string of the value admissible for the strict parse. -/
def jsonOkS : Json → Bool
  | .null => true
  | .bool _ => true
  | .num _ => true
  | .str s => strOkS s
  | .arr es => jsonOkSList es
  | .obj ms => jsonOkSMembers ms
/-- Elementwise `jsonOkS`. -/
def jsonOkSList : JsonList → Bool
  | .nil => true
  | .cons v tl => jsonOkS v && jsonOkSList tl
/-- Memberwise `jsonOkS`, keys included. -/
def jsonOkSMembers : JsonMembers → Bool
  | .nil => true
  | .cons k v tl => strOkS k && jsonOkS v && jsonOkSMembers tl
end

/-- The continuations a rendered value is followed by inside a payload: the
end of input or a separator/closer (the only constraint the fueled parser
needs, because number literals are delimited only by what follows them). -/
def restOk (l : Str) : Prop :=
  match l with
  | [] => True
  | c :: _ => c = ',' ∨ c = ']' ∨ c = '}'

/-- A payload value with a raw newline inside a string field, used by the
C6 witness. -/
def vC6 : Json :=
  .arr (.cons (.obj (.cons "title".data (.str "soft\nconcrete".data) .nil)) .nil)

/-- Top-level `JSON.parse` model: parse one value, then require only
trailing whitespace. -/
def jsonParse (s : Str) : Option Json :=
  match parseValue (s.length + 1) s with
  | some (v, r) => if skipWs r = [] then some v else none
  | none => none

/-- The payload-loading step of `init` (part_001 lines 97-102): escape raw
newlines inside quoted string spans, then JSON-decode. -/
def initParseProjectsPayload (s : Str) : Option Json :=
  jsonParse (escapeStringSpans s)

/-! Concrete inputs used by witnesses and counterexamples. -/

/-- A minimal project record. -/
def sampleProject : Project := { title := "alpha".data }

/-- A second minimal project record. -/
def sampleProject2 : Project := { title := "beta".data }

/-- A page state with two projects and the overlay open at index 0. -/
def stBase : PageState :=
  { projectsData := [sampleProject, sampleProject2]
    overlayPresent := true
    currentProjectIndex := 0
    isOverlayOpen := true
    lastFocusedElement := none
    activeElement := some 7
    renderedProject := some sampleProject
    overlayScrollTop := 0
    prevBtnDisabled := true
    nextBtnDisabled := false
    pendingFocusCloseBtn := true
    numGridContainers := 2
    armedGridIndex := -1
    armedGridResetTimer := none
    armedClasses := []
    pendingTimers := []
    nextTimerId := 0 }

/-- A page state with the overlay closed and nothing rendered yet. -/
def stClosed : PageState :=
  { stBase with isOverlayOpen := false, renderedProject := none, pendingFocusCloseBtn := false }

/-- Consistency of the arming state, as established at page load and
maintained by the handlers: the `grid-item--armed` classes are exactly the
armed tile's (which lies within container range), pending timer ids are
distinct and below the id counter, and so is the armed reset timer's id. -/
def armedInv (st : PageState) : Bool :=
  ((decide (st.armedGridIndex = -1) && decide (st.armedClasses = [])) ||
    (decide (0 ≤ st.armedGridIndex) &&
      decide (st.armedGridIndex < (st.numGridContainers : Int)) &&
      decide (st.armedClasses = [st.armedGridIndex.toNat]))) &&
  st.pendingTimers.all (fun t => decide (t < st.nextTimerId)) &&
  decide st.pendingTimers.Nodup &&
  (match st.armedGridResetTimer with
   | some t => decide (t < st.nextTimerId)
   | none => true)

/-- A bilingual project record. -/
def pC9 : Project :=
  { title := "t".data, description := "hello".data, description_ko := "안녕".data }

/-- A record whose slug normalizes to the empty string. -/
def projC8 : Project := { title := "apple".data, slug := "-".data }

/-- A record matching the query value "soft-concrete". -/
def projC8b : Project := { title := "Soft Concrete".data, slug := "soft_concrete".data }

/-- A record with one custom meta field and a year. -/
def projC4 : Project :=
  { title := "t".data, year := "2024".data,
    custom_fields := [{ id := none, label := "CLIENT".data, value := "X".data }] }

/-! Theorems. -/

/-- Frame of `clearArmedGridItem`: it touches only the arming fields
(`armedGridIndex`, `armedGridResetTimer`, `armedClasses`,
`pendingTimers`). -/
theorem clearArmedGridItem_frame (st : PageState) :
    (clearArmedGridItem st).projectsData = st.projectsData ∧
    (clearArmedGridItem st).overlayPresent = st.overlayPresent ∧
    (clearArmedGridItem st).currentProjectIndex = st.currentProjectIndex ∧
    (clearArmedGridItem st).isOverlayOpen = st.isOverlayOpen ∧
    (clearArmedGridItem st).lastFocusedElement = st.lastFocusedElement ∧
    (clearArmedGridItem st).activeElement = st.activeElement ∧
    (clearArmedGridItem st).renderedProject = st.renderedProject ∧
    (clearArmedGridItem st).overlayScrollTop = st.overlayScrollTop ∧
    (clearArmedGridItem st).numGridContainers = st.numGridContainers ∧
    (clearArmedGridItem st).nextTimerId = st.nextTimerId := by
  unfold clearArmedGridItem
  cases st.armedGridResetTimer <;> dsimp only <;> split <;> simp_all <;> split <;> simp_all

/-- C10: `closeOverlay` changes only the open/closed flag of the overlay
state triple: `currentIndex` and `lastFocusedElement` (and the rendered
content and project list) are left unchanged, so the index of the project
that was open is retained across the close. -/
theorem c10_close_frame (st : PageState) :
    (closeOverlay st).currentProjectIndex = st.currentProjectIndex ∧
    (closeOverlay st).lastFocusedElement = st.lastFocusedElement ∧
    (closeOverlay st).renderedProject = st.renderedProject ∧
    (closeOverlay st).projectsData = st.projectsData := by
  unfold closeOverlay
  split
  · simp
  · cases st.lastFocusedElement <;> simp

/-- C2: with the overlay present and open, `next()` moves from a valid
index `i < N-1` to `i+1` and `prev()` from a valid `i > 0` to `i-1`,
re-rendering the target record; at the last index `next()` leaves the
entire state unchanged, and at index 0 so does `prev()` (no wrapping). -/
theorem c2_nav_clamped (st : PageState) (hov : st.overlayPresent = true)
    (hopen : st.isOverlayOpen = true) :
    (st.currentProjectIndex = (st.projectsData.length : Int) - 1 → goToNextProject st = st) ∧
    (st.currentProjectIndex = 0 → goToPrevProject st = st) ∧
    (0 ≤ st.currentProjectIndex → st.currentProjectIndex < (st.projectsData.length : Int) - 1 →
      (goToNextProject st).currentProjectIndex = st.currentProjectIndex + 1 ∧
      (goToNextProject st).isOverlayOpen = true ∧
      (goToNextProject st).lastFocusedElement = st.lastFocusedElement ∧
      (goToNextProject st).renderedProject = jsIndex st.projectsData (st.currentProjectIndex + 1)) ∧
    (0 < st.currentProjectIndex → st.currentProjectIndex < (st.projectsData.length : Int) →
      (goToPrevProject st).currentProjectIndex = st.currentProjectIndex - 1 ∧
      (goToPrevProject st).isOverlayOpen = true ∧
      (goToPrevProject st).lastFocusedElement = st.lastFocusedElement ∧
      (goToPrevProject st).renderedProject = jsIndex st.projectsData (st.currentProjectIndex - 1)) := by
  refine ⟨?_, ?_, ?_, ?_⟩
  · intro h
    unfold goToNextProject
    rw [if_neg (by omega)]
  · intro h
    unfold goToPrevProject
    rw [if_neg (by omega)]
  · intro h0 h1
    unfold goToNextProject
    rw [if_pos (by omega)]
    have hsome : ∃ p, jsIndex st.projectsData (st.currentProjectIndex + 1) = some p := by
      rw [jsIndex, dif_pos (by omega)]
      exact ⟨_, rfl⟩
    obtain ⟨p, hp⟩ := hsome
    simp [renderProjectDetailState, updateNavButtons, scrollOverlayToTop, hov, hp, hopen]
  · intro h0 h1
    unfold goToPrevProject
    rw [if_pos (by omega)]
    have hsome : ∃ p, jsIndex st.projectsData (st.currentProjectIndex - 1) = some p := by
      rw [jsIndex, dif_pos (by omega)]
      exact ⟨_, rfl⟩
    obtain ⟨p, hp⟩ := hsome
    simp [renderProjectDetailState, updateNavButtons, scrollOverlayToTop, hov, hp, hopen]

/-- Witness for C2 at the concrete state `stBase`. -/
theorem c2_nav_clamped_witness :
    stBase.overlayPresent = true ∧ stBase.isOverlayOpen = true ∧
    ((stBase.currentProjectIndex = (stBase.projectsData.length : Int) - 1 →
        goToNextProject stBase = stBase) ∧
      (stBase.currentProjectIndex = 0 → goToPrevProject stBase = stBase) ∧
      (0 ≤ stBase.currentProjectIndex →
        stBase.currentProjectIndex < (stBase.projectsData.length : Int) - 1 →
        (goToNextProject stBase).currentProjectIndex = stBase.currentProjectIndex + 1 ∧
        (goToNextProject stBase).isOverlayOpen = true ∧
        (goToNextProject stBase).lastFocusedElement = stBase.lastFocusedElement ∧
        (goToNextProject stBase).renderedProject =
          jsIndex stBase.projectsData (stBase.currentProjectIndex + 1)) ∧
      (0 < stBase.currentProjectIndex →
        stBase.currentProjectIndex < (stBase.projectsData.length : Int) →
        (goToPrevProject stBase).currentProjectIndex = stBase.currentProjectIndex - 1 ∧
        (goToPrevProject stBase).isOverlayOpen = true ∧
        (goToPrevProject stBase).lastFocusedElement = stBase.lastFocusedElement ∧
        (goToPrevProject stBase).renderedProject =
          jsIndex stBase.projectsData (stBase.currentProjectIndex - 1))) :=
  ⟨by decide, by decide, c2_nav_clamped stBase (by decide) (by decide)⟩

/-- C3: for a valid index `i`, `open(i)` immediately followed by `close()`
leaves the overlay closed, with the pre-open focused element captured into
`lastFocusedElement` by the open and focus returned to it by the close. -/
theorem c3_open_close_roundtrip (st : PageState) (i : Int)
    (hov : st.overlayPresent = true) (hne : st.projectsData ≠ [])
    (hlo : 0 ≤ i) (hhi : i < (st.projectsData.length : Int)) :
    (closeOverlay (openProject i st)).isOverlayOpen = false ∧
    (openProject i st).lastFocusedElement = st.activeElement ∧
    (closeOverlay (openProject i st)).activeElement = st.activeElement := by
  have hframe := clearArmedGridItem_frame st
  have hguard : ¬(¬st.overlayPresent ∨ st.projectsData = []) := by simp [hov, hne]
  obtain ⟨hp, hovf, hci, hio, hlf, hae, hrp, hst, hng, hnt⟩ := hframe
  unfold openProject
  rw [if_neg hguard]
  unfold closeOverlay renderProjectDetailState updateNavButtons
  cases hj : jsIndex (clearArmedGridItem st).projectsData i <;>
    simp_all <;> cases hb : st.activeElement <;> simp_all

/-- Witness for C3 at the concrete state `stBase`, index 1. -/
theorem c3_open_close_roundtrip_witness :
    stBase.overlayPresent = true ∧ stBase.projectsData ≠ [] ∧
    (0 : Int) ≤ 1 ∧ (1 : Int) < (stBase.projectsData.length : Int) ∧
    ((closeOverlay (openProject 1 stBase)).isOverlayOpen = false ∧
      (openProject 1 stBase).lastFocusedElement = stBase.activeElement ∧
      (closeOverlay (openProject 1 stBase)).activeElement = stBase.activeElement) :=
  ⟨by decide, by decide, by decide, by decide,
    c3_open_close_roundtrip stBase 1 (by decide) (by decide) (by decide) (by decide)⟩

/-- C1 counterexample: at the concrete state `stClosed` (overlay present,
two projects, overlay closed), `open(5)` with the out-of-range index 5 is
not a no-op on the overlay state: it changes `isOpen`, `currentIndex` and
`lastFocusedElement`. -/
theorem c1_counterexample :
    ¬((openProject 5 stClosed).isOverlayOpen = stClosed.isOverlayOpen ∧
      (openProject 5 stClosed).currentProjectIndex = stClosed.currentProjectIndex ∧
      (openProject 5 stClosed).lastFocusedElement = stClosed.lastFocusedElement) := by
  decide

/-- C1 as amended: with the overlay present and the project list nonempty,
`open(i)` for an out-of-range `i` raises no error (every step of the
embedding is total: `projectsData[i]` is `undefined`, which the preload and
render guards tolerate) and skips re-rendering the content region, but it
is not a no-op: it still sets `currentIndex := i`, captures
`lastFocusedElement` from the focused element, and opens the overlay. -/
theorem c1_amended (st : PageState) (i : Int) (hov : st.overlayPresent = true)
    (hne : st.projectsData ≠ []) (hout : i < 0 ∨ (st.projectsData.length : Int) ≤ i) :
    (openProject i st).isOverlayOpen = true ∧
    (openProject i st).currentProjectIndex = i ∧
    (openProject i st).lastFocusedElement = st.activeElement ∧
    (openProject i st).renderedProject = st.renderedProject := by
  have hframe := clearArmedGridItem_frame st
  have hguard : ¬(¬st.overlayPresent ∨ st.projectsData = []) := by simp [hov, hne]
  obtain ⟨hp, hovf, hci, hio, hlf, hae, hrp, hst, hng, hnt⟩ := hframe
  have hj : jsIndex (clearArmedGridItem st).projectsData i = none := by
    rw [jsIndex, dif_neg]
    rw [hp]
    omega
  unfold openProject
  rw [if_neg hguard]
  unfold renderProjectDetailState updateNavButtons
  simp_all

/-- Witness for the amended C1 at the concrete state `stClosed`, index 5. -/
theorem c1_amended_witness :
    stClosed.overlayPresent = true ∧ stClosed.projectsData ≠ [] ∧
    ((5 : Int) < 0 ∨ (stClosed.projectsData.length : Int) ≤ 5) ∧
    ((openProject 5 stClosed).isOverlayOpen = true ∧
      (openProject 5 stClosed).currentProjectIndex = 5 ∧
      (openProject 5 stClosed).lastFocusedElement = stClosed.activeElement ∧
      (openProject 5 stClosed).renderedProject = stClosed.renderedProject) :=
  ⟨by decide, by decide, by decide,
    c1_amended stClosed 5 (by decide) (by decide) (by decide)⟩

/-- The preload chain resolves with the first successfully loading
candidate, `[]` on exhaustion. -/
theorem preloadTryLoad_eq_find (loads : Str → Bool) (cs : List Str) :
    preloadTryLoad loads cs = ((cs.find? loads).getD []) := by
  induction cs with
  | nil => rfl
  | cons c rest ih =>
    rw [preloadTryLoad, List.find?_cons]
    cases h : loads c <;> simp [h, ih]

/-- The thumbnail chain shows at most one URL: the first success. -/
theorem loadThumbnailTryNext_spec (loads : Str → Bool) (cs : List Str) (st : ThumbState) :
    (match cs.find? loads with
     | some c =>
       (loadThumbnailTryNext loads cs st).1 = [c] ∧
       (loadThumbnailTryNext loads cs st).2.backgroundImage = some c ∧
       (loadThumbnailTryNext loads cs st).2.loadedClass = true ∧
       (loadThumbnailTryNext loads cs st).2.placeholderClass = st.placeholderClass
     | none =>
       (loadThumbnailTryNext loads cs st).1 = [] ∧
       (loadThumbnailTryNext loads cs st).2.backgroundImage = st.backgroundImage ∧
       (loadThumbnailTryNext loads cs st).2.placeholderClass = true ∧
       (loadThumbnailTryNext loads cs st).2.loadedClass = true) := by
  induction cs with
  | nil => simp [loadThumbnailTryNext]
  | cons c rest ih =>
    rw [List.find?_cons]
    cases h : loads c
    · simpa [loadThumbnailTryNext, h] using ih
    · simp [loadThumbnailTryNext, h]

/-- C5: the fallback helper attempts its ordered candidate list strictly in
order: the preload chain (`preloadImageSequence`) resolves with the first
candidate the load oracle accepts and with `[]` when all fail, and the
thumbnail chain (`loadThumbnailTryNext`) shows exactly the first successful
candidate (earlier, failing candidates are never assigned to the
background) and ends in the terminal placeholder state when every
candidate fails. -/
theorem c5_fallback_first_success (loads : Str → Bool) (cs : List Str) (st : ThumbState) :
    preloadImageSequence loads cs = ((cs.find? loads).getD []) ∧
    (match cs.find? loads with
     | some c =>
       (loadThumbnailTryNext loads cs st).1 = [c] ∧
       (loadThumbnailTryNext loads cs st).2.backgroundImage = some c ∧
       (loadThumbnailTryNext loads cs st).2.loadedClass = true ∧
       (loadThumbnailTryNext loads cs st).2.placeholderClass = st.placeholderClass
     | none =>
       (loadThumbnailTryNext loads cs st).1 = [] ∧
       (loadThumbnailTryNext loads cs st).2.backgroundImage = st.backgroundImage ∧
       (loadThumbnailTryNext loads cs st).2.placeholderClass = true ∧
       (loadThumbnailTryNext loads cs st).2.loadedClass = true) := by
  constructor
  · unfold preloadImageSequence
    split
    · simp_all
    · exact preloadTryLoad_eq_find loads cs
  · exact loadThumbnailTryNext_spec loads cs st

/-- The language-toggle handlers keep the paragraphs present and the
English description visible. -/
theorem applyClicks_en_visible (clicks : List Lang) (st : LangState)
    (h1 : st.enPresent = true) (h2 : st.koPresent = true) (h3 : st.enVisible = true) :
    (applyClicks clicks st).enPresent = true ∧ (applyClicks clicks st).koPresent = true ∧
    (applyClicks clicks st).enVisible = true := by
  induction clicks generalizing st with
  | nil => exact ⟨h1, h2, h3⟩
  | cons l rest ih =>
    have hstep : (clickLang st l).enPresent = true ∧ (clickLang st l).koPresent = true ∧
        (clickLang st l).enVisible = true := by
      cases l <;> simp [clickLang, h1, h2, h3]
    exact ih (clickLang st l) hstep.1 hstep.2.1 hstep.2.2

/-- C9: for a record with bilingual description content, along every
sequence of language-toggle clicks the primary (source-language) paragraph
stays visible; a click on EN leaves it showing the primary text only, a
click on KR shows the primary text plus the translation — only the
translation's visibility ever changes. -/
theorem c9_lang_toggle (p : Project) (hen : p.description ≠ []) (hko : p.description_ko ≠ [])
    (clicks : List Lang) :
    (applyClicks clicks (renderLangState p)).enVisible = true ∧
    ((applyClicks (clicks ++ [Lang.en]) (renderLangState p)).enVisible = true ∧
      (applyClicks (clicks ++ [Lang.en]) (renderLangState p)).koVisible = false) ∧
    ((applyClicks (clicks ++ [Lang.kr]) (renderLangState p)).enVisible = true ∧
      (applyClicks (clicks ++ [Lang.kr]) (renderLangState p)).koVisible = true) := by
  have hinit : (renderLangState p).enPresent = true ∧ (renderLangState p).koPresent = true ∧
      (renderLangState p).enVisible = true := by
    simp [renderLangState, hen, hko]
  have hbase := applyClicks_en_visible clicks (renderLangState p) hinit.1 hinit.2.1 hinit.2.2
  have happen : ∀ l, applyClicks (clicks ++ [l]) (renderLangState p) =
      clickLang (applyClicks clicks (renderLangState p)) l := by
    intro l
    simp [applyClicks, List.foldl_append]
  refine ⟨hbase.2.2, ?_, ?_⟩
  · rw [happen Lang.en]
    constructor
    · simp [clickLang, hbase.1, hbase.2.1]
    · simp [clickLang, hbase.1, hbase.2.1]
  · rw [happen Lang.kr]
    constructor
    · simp [clickLang, hbase.1, hbase.2.1]
    · simp [clickLang, hbase.1, hbase.2.1]

/-- Witness for C9 at the bilingual record `pC9` with a concrete click
sequence. -/
theorem c9_lang_toggle_witness :
    pC9.description ≠ [] ∧ pC9.description_ko ≠ [] ∧
    ((applyClicks [Lang.kr, Lang.en] (renderLangState pC9)).enVisible = true ∧
      ((applyClicks ([Lang.kr, Lang.en] ++ [Lang.en]) (renderLangState pC9)).enVisible = true ∧
        (applyClicks ([Lang.kr, Lang.en] ++ [Lang.en]) (renderLangState pC9)).koVisible = false) ∧
      ((applyClicks ([Lang.kr, Lang.en] ++ [Lang.kr]) (renderLangState pC9)).enVisible = true ∧
        (applyClicks ([Lang.kr, Lang.en] ++ [Lang.kr]) (renderLangState pC9)).koVisible = true)) :=
  ⟨by decide, by decide, c9_lang_toggle pC9 (by decide) (by decide) [Lang.kr, Lang.en]⟩

/-- Timer effect of `clearArmedGridItem`: the pending auto-disarm timeout,
when scheduled, is cancelled (removed from the pending timers). -/
theorem clearArmedGridItem_timers (st : PageState) :
    (clearArmedGridItem st).armedGridResetTimer = none ∧
    (clearArmedGridItem st).pendingTimers =
      (match st.armedGridResetTimer with
       | some t => st.pendingTimers.erase t
       | none => st.pendingTimers) := by
  obtain ⟨pd, ov, ci, io, lf, ae, rp, ost, pb, nb, pf, ng, agi, agt, ac, pt, nti⟩ := st
  cases agt <;> simp only [clearArmedGridItem] <;> split_ifs <;> simp

/-- Under the arming invariant, `clearArmedGridItem` leaves no tile armed
and no armed class. -/
theorem clearArmedGridItem_disarms (st : PageState) (hinv : armedInv st = true) :
    (clearArmedGridItem st).armedGridIndex = -1 ∧
    (clearArmedGridItem st).armedClasses = [] := by
  obtain ⟨pd, ov, ci, io, lf, ae, rp, ost, pb, nb, pf, ng, agi, agt, ac, pt, nti⟩ := st
  simp only [armedInv, Bool.and_eq_true, Bool.or_eq_true, decide_eq_true_eq,
    List.all_eq_true] at hinv
  obtain ⟨⟨⟨hidx, _⟩, _⟩, _⟩ := hinv
  cases agt <;> simp only [clearArmedGridItem] <;> split_ifs with hc1 hc2 <;>
    rcases hidx with ⟨h1, h2⟩ | ⟨h1, h2, h3⟩
  all_goals simp_all
  all_goals omega

/-- Every timer still pending after `clearArmedGridItem` has an id below
the counter. -/
theorem clearArmedGridItem_pending_lt (st : PageState) (hinv : armedInv st = true) :
    ∀ t ∈ (clearArmedGridItem st).pendingTimers, t < st.nextTimerId := by
  have htim := clearArmedGridItem_timers st
  simp only [armedInv, Bool.and_eq_true, Bool.or_eq_true, decide_eq_true_eq,
    List.all_eq_true] at hinv
  obtain ⟨⟨⟨_, hpend⟩, _⟩, _⟩ := hinv
  intro t ht
  rw [htim.2] at ht
  cases htimer : st.armedGridResetTimer <;> rw [htimer] at ht <;> dsimp only at ht
  · exact hpend t ht
  · exact hpend t (List.mem_of_mem_erase ht)

/-- The pending-timer list stays duplicate-free across
`clearArmedGridItem`. -/
theorem clearArmedGridItem_pending_nodup (st : PageState) (hinv : armedInv st = true) :
    (clearArmedGridItem st).pendingTimers.Nodup := by
  have htim := clearArmedGridItem_timers st
  simp only [armedInv, Bool.and_eq_true, Bool.or_eq_true, decide_eq_true_eq,
    List.all_eq_true] at hinv
  obtain ⟨⟨⟨_, _⟩, hnodup⟩, _⟩ := hinv
  rw [htim.2]
  cases htimer : st.armedGridResetTimer
  · simpa using hnodup
  · exact hnodup.erase _

/-- Full effect of `armGridItem` on the arming state under the invariant:
the tile is armed alone, a fresh timer is scheduled, and the invariant is
maintained. -/
theorem armGridItem_spec (st : PageState) (k : Nat) (hinv : armedInv st = true)
    (hk : k < st.numGridContainers) :
    (armGridItem k st).armedGridIndex = (k : Int) ∧
    (armGridItem k st).armedClasses = [k] ∧
    (armGridItem k st).armedGridResetTimer = some st.nextTimerId ∧
    (armGridItem k st).nextTimerId = st.nextTimerId + 1 ∧
    (armGridItem k st).numGridContainers = st.numGridContainers ∧
    (armGridItem k st).pendingTimers = (clearArmedGridItem st).pendingTimers ++ [st.nextTimerId] ∧
    armedInv (armGridItem k st) = true := by
  have hdis := clearArmedGridItem_disarms st hinv
  have hpend' := clearArmedGridItem_pending_lt st hinv
  have hnodup' := clearArmedGridItem_pending_nodup st hinv
  obtain ⟨hf1, hf2, hf3, hf4, hf5, hf6, hf7, hf8, hf9, hf10⟩ := clearArmedGridItem_frame st
  simp only [armGridItem]
  rw [hf9, hf10, if_pos hk]
  dsimp only
  refine ⟨?_, ?_, ?_, ?_, ?_, ?_, ?_⟩
  · rfl
  · rw [hdis.2]
  · rfl
  · rfl
  · rfl
  · rfl
  simp only [armedInv, Bool.and_eq_true, Bool.or_eq_true, decide_eq_true_eq,
    List.all_eq_true]
  refine ⟨⟨⟨?_, ?_⟩, ?_⟩, ?_⟩
  · right
    refine ⟨⟨by omega, by omega⟩, by simp [hdis.2]⟩
  · intro t ht
    simp only [List.mem_append, List.mem_singleton] at ht
    rcases ht with h | h
    · have := hpend' t h
      omega
    · omega
  · refine List.Nodup.append hnodup' (by simp) ?_
    intro t ht h2
    simp only [List.mem_singleton] at h2
    subst h2
    exact absurd (hpend' _ ht) (by omega)
  · omega

/-- C7: in arm-then-open mode at most one tile is armed at a time: arming
tile `j` while tile `k` is armed (both existing, `j ≠ k`) leaves exactly
tile `j` armed with exactly tile `j` carrying the armed class, and tile
`k`'s pending 2400ms auto-disarm timer is cancelled — it is no longer
pending and firing it has no effect on the state, so it never disarms tile
`j`. -/
theorem c7_single_armed (st : PageState) (j k : Nat) (hinv : armedInv st = true)
    (hj : j < st.numGridContainers) (hk : k < st.numGridContainers) :
    (armGridItem k st).armedGridIndex = (k : Int) ∧
    (armGridItem j (armGridItem k st)).armedGridIndex = (j : Int) ∧
    (armGridItem j (armGridItem k st)).armedClasses = [j] ∧
    (∀ t, (armGridItem k st).armedGridResetTimer = some t →
      t ∉ (armGridItem j (armGridItem k st)).pendingTimers ∧
      fireArmTimer t (armGridItem j (armGridItem k st)) = armGridItem j (armGridItem k st)) := by
  obtain ⟨ha1, ha2, ha3, ha4, ha5, ha6, ha7⟩ := armGridItem_spec st k hinv hk
  have hj' : j < (armGridItem k st).numGridContainers := by rw [ha5]; exact hj
  obtain ⟨hb1, hb2, hb3, hb4, hb5, hb6, hb7⟩ := armGridItem_spec (armGridItem k st) j ha7 hj'
  have hlt := clearArmedGridItem_pending_lt st hinv
  have htimB := clearArmedGridItem_timers (armGridItem k st)
  have hnotmem0 : st.nextTimerId ∉ (clearArmedGridItem st).pendingTimers := by
    intro hmem
    exact absurd (hlt _ hmem) (by omega)
  have herase : (clearArmedGridItem (armGridItem k st)).pendingTimers =
      (clearArmedGridItem st).pendingTimers := by
    rw [htimB.2, ha3, ha6]
    dsimp only
    rw [List.erase_append_right _ hnotmem0]
    simp
  have hnotmem : st.nextTimerId ∉ (armGridItem j (armGridItem k st)).pendingTimers := by
    rw [hb6, herase, ha4]
    intro hmem
    rcases List.mem_append.mp hmem with h | h
    · exact absurd (hlt _ h) (by omega)
    · simp at h
  refine ⟨ha1, hb1, hb2, ?_⟩
  intro t ht
  rw [ha3] at ht
  injection ht with ht
  subst ht
  refine ⟨hnotmem, ?_⟩
  unfold fireArmTimer
  rw [if_neg hnotmem]

/-- Witness for C7 at the concrete state `stBase`, arming tile 1 then
tile 0. -/
theorem c7_single_armed_witness :
    armedInv stBase = true ∧ 0 < stBase.numGridContainers ∧ 1 < stBase.numGridContainers ∧
    ((armGridItem 1 stBase).armedGridIndex = (1 : Int) ∧
      (armGridItem 0 (armGridItem 1 stBase)).armedGridIndex = (0 : Int) ∧
      (armGridItem 0 (armGridItem 1 stBase)).armedClasses = [0] ∧
      (∀ t, (armGridItem 1 stBase).armedGridResetTimer = some t →
        t ∉ (armGridItem 0 (armGridItem 1 stBase)).pendingTimers ∧
        fireArmTimer t (armGridItem 0 (armGridItem 1 stBase)) =
          armGridItem 0 (armGridItem 1 stBase))) :=
  ⟨by decide, by decide, by decide,
    c7_single_armed stBase 0 1 (by decide) (by decide) (by decide)⟩

/-- C8 counterexample: for the single record `projC8` (slug `-`) and query
value `.`, the record's slug and the query value both normalize to the
empty string — the claim as stated therefore predicts that the overlay
opens at index 0 even without `autopopup` — yet the code treats a query
value that normalizes to the empty string as a failed lookup and does not
open. -/
theorem c8_counterexample :
    normalizeProjectKey projC8.slug = normalizeProjectKey ".".data ∧
    projectKeyMatches (normalizeProjectKey ".".data) projC8 = true ∧
    openProjectFromQueryParam true [projC8] (some ".".data) none = none := by
  decide

/-- C8 as amended: on load with `?project=P` (overlay present, nonempty
parsed list), when P's normalization is nonempty the overlay opens at the
first record one of whose keys (slug, display title, title, index)
normalizes to it — `some i` names the first match, as the final conjunct
characterizes; when P normalizes to the empty string or no record matches,
the overlay opens at index 0 if `autopopup=1` is present and does not open
otherwise. -/
theorem c8_amended (projects : List Project) (P : Str) (autopopup : Option Str)
    (hne : projects ≠ []) :
    (∀ i : Nat, normalizeProjectKey P ≠ [] →
      projects.findIdx? (projectKeyMatches (normalizeProjectKey P)) = some i →
      openProjectFromQueryParam true projects (some P) autopopup = some (i : Int)) ∧
    ((normalizeProjectKey P = [] ∨
        projects.findIdx? (projectKeyMatches (normalizeProjectKey P)) = none) →
      openProjectFromQueryParam true projects (some P) autopopup =
        (if autopopup = some "1".data then some 0 else none)) ∧
    (∀ i : Nat, projects.findIdx? (projectKeyMatches (normalizeProjectKey P)) = some i →
      ∃ h : i < projects.length,
        projectKeyMatches (normalizeProjectKey P) (projects.get ⟨i, h⟩) = true ∧
        ∀ j (hj : j < projects.length), j < i →
          projectKeyMatches (normalizeProjectKey P) (projects.get ⟨j, hj⟩) = false) := by
  refine ⟨?_, ?_, ?_⟩
  · intro i hnorm hfind
    have hPne : P ≠ [] := by
      intro h
      subst h
      exact hnorm rfl
    simp only [openProjectFromQueryParam, findProjectIndexFromParam]
    rw [if_neg (by simp [hne])]
    rw [if_neg (by simp [hPne])]
    simp only [Option.getD_some]
    rw [if_neg hnorm, hfind]
    dsimp only
    rw [if_neg (by omega)]
  · intro h
    by_cases hforce : autopopup = some "1".data
    · simp only [openProjectFromQueryParam, findProjectIndexFromParam]
      rw [if_neg (by simp [hne])]
      rw [if_neg (by simp [hforce])]
      simp only [Option.getD_some]
      rcases h with hnorm | hfind
      · rw [if_pos hnorm]
        simp [hforce]
      · by_cases hnorm : normalizeProjectKey P = []
        · rw [if_pos hnorm]
          simp [hforce]
        · rw [if_neg hnorm, hfind]
          simp [hforce]
    · by_cases hP : P = []
      · simp only [openProjectFromQueryParam]
        rw [if_neg (by simp [hne])]
        rw [if_pos (by simp [hP, hforce])]
        simp [hforce]
      · simp only [openProjectFromQueryParam, findProjectIndexFromParam]
        rw [if_neg (by simp [hne])]
        rw [if_neg (by simp [hP, hforce])]
        simp only [Option.getD_some]
        rcases h with hnorm | hfind
        · rw [if_pos hnorm]
          simp [hforce]
        · by_cases hnorm : normalizeProjectKey P = []
          · rw [if_pos hnorm]
            simp [hforce]
          · rw [if_neg hnorm, hfind]
            simp [hforce]
  · intro i hfind
    rw [List.findIdx?_eq_some_iff_getElem] at hfind
    obtain ⟨h, hp, hprev⟩ := hfind
    refine ⟨h, by simpa using hp, ?_⟩
    intro j hj hji
    have := hprev j hji
    simpa using this

/-- Witness for the amended C8: the query `?project=soft-concrete` opens
the overlay on the record whose slug normalizes to `softconcrete`, and the
failed lookup `?project=doesnotexist&autopopup=1` opens index 0. -/
theorem c8_amended_witness :
    ([projC8, projC8b] : List Project) ≠ [] ∧
    ((∀ i : Nat, normalizeProjectKey "soft-concrete".data ≠ [] →
      [projC8, projC8b].findIdx?
        (projectKeyMatches (normalizeProjectKey "soft-concrete".data)) = some i →
      openProjectFromQueryParam true [projC8, projC8b] (some "soft-concrete".data)
        none = some (i : Int)) ∧
    ((normalizeProjectKey "soft-concrete".data = [] ∨
        [projC8, projC8b].findIdx?
          (projectKeyMatches (normalizeProjectKey "soft-concrete".data)) = none) →
      openProjectFromQueryParam true [projC8, projC8b] (some "soft-concrete".data) none =
        (if none = some "1".data then some 0 else none)) ∧
    (∀ i : Nat, [projC8, projC8b].findIdx?
        (projectKeyMatches (normalizeProjectKey "soft-concrete".data)) = some i →
      ∃ h : i < ([projC8, projC8b] : List Project).length,
        projectKeyMatches (normalizeProjectKey "soft-concrete".data)
          (([projC8, projC8b] : List Project).get ⟨i, h⟩) = true ∧
        ∀ j (hj : j < ([projC8, projC8b] : List Project).length), j < i →
          projectKeyMatches (normalizeProjectKey "soft-concrete".data)
            (([projC8, projC8b] : List Project).get ⟨j, hj⟩) = false)) ∧
    openProjectFromQueryParam true [projC8, projC8b] (some "doesnotexist".data)
      (some "1".data) = some 0 :=
  ⟨by decide, c8_amended [projC8, projC8b] "soft-concrete".data none (by decide), by decide⟩

/-- Every resolved custom field carries a `custom:`-prefixed token and a
nonempty value. -/
theorem resolvedCustomFields_props (p : Project) :
    ∀ f ∈ resolvedCustomFieldsOf p, (∃ s, f.token = "custom:".data ++ s) ∧ f.value ≠ [] := by
  intro f hf
  unfold resolvedCustomFieldsOf at hf
  simp only [List.mem_map] at hf
  obtain ⟨nf, hmem, rfl⟩ := hf
  have hsnd : nf.2 ∈ p.custom_fields.filter fun f =>
      decide (f.label ≠ []) && decide (f.value ≠ []) &&
        decide (toUpperStr (trimStr f.label) ∉ reservedMetaLabels) := by
    rw [List.mem_enum_iff_getElem?] at hmem
    exact List.getElem?_mem hmem
  have hval : nf.2.value ≠ [] := by
    have := (List.mem_filter.mp hsnd).2
    simp only [Bool.and_eq_true, decide_eq_true_eq] at this
    exact this.1.2
  exact ⟨⟨_, rfl⟩, hval⟩

/-- A `custom:`-prefixed token is not one of the base meta keys. -/
theorem baseMetaLabel_custom_none (s : Str) :
    baseMetaLabel ("custom:".data ++ s) = none := by
  simp [baseMetaLabel, baseMetaFields, List.find?]

/-- A `custom:`-prefixed token is not in the base meta key list. -/
theorem custom_token_not_base (s : Str) :
    "custom:".data ++ s ∉
      (["location".data, "duration".data, "program".data, "studio".data] : List Str) := by
  simp

/-- Pushing a list of pairwise distinct, fresh tokens appends them in
order. -/
theorem foldl_push_eq_append (l : List ResolvedCustomField) (acc : List Str)
    (hnd : (l.map fun f => f.token).Nodup)
    (hdisj : ∀ f ∈ l, f.token ∉ acc) :
    l.foldl (fun a f => if decide (f.token ∈ a) then a else a ++ [f.token]) acc =
      acc ++ l.map fun f => f.token := by
  induction l generalizing acc with
  | nil => simp
  | cons g tl ih =>
    rw [List.foldl_cons, if_neg (by simpa using hdisj g (List.mem_cons_self g tl))]
    simp only [List.map_cons, List.nodup_cons] at hnd
    rw [ih (acc ++ [g.token]) hnd.2 ?_]
    · simp
    · intro f hf hmem
      rcases List.mem_append.mp hmem with h | h
      · exact hdisj f (List.mem_cons_of_mem g hf) h
      · simp only [List.mem_singleton] at h
        exact hnd.1 (h ▸ List.mem_map_of_mem (fun f => f.token) hf)

/-- A fold over entries whose keys all differ from `key` keeps the
accumulator. -/
theorem jsMapFind_foldl_skip (l : List ResolvedCustomField) (key : Str)
    (acc : Option ResolvedCustomField) (h : ∀ f ∈ l, f.token ≠ key) :
    (l.map fun g => (g.token, g)).foldl
      (fun acc kv => if kv.1 = key then some kv.2 else acc) acc = acc := by
  induction l generalizing acc with
  | nil => rfl
  | cons g tl ih =>
    simp only [List.map_cons, List.foldl_cons]
    rw [if_neg (h g (List.mem_cons_self g tl))]
    exact ih acc fun f hf => h f (List.mem_cons_of_mem g hf)

/-- With pairwise distinct tokens, the `Map` lookup of a member's token
yields that member. -/
theorem jsMapFind_self (l : List ResolvedCustomField) (f : ResolvedCustomField)
    (hnd : (l.map fun g => g.token).Nodup) (hf : f ∈ l) :
    jsMapFind (l.map fun g => (g.token, g)) f.token = some f := by
  induction l with
  | nil => cases hf
  | cons g tl ih =>
    simp only [List.map_cons, List.nodup_cons] at hnd
    rcases List.mem_cons.mp hf with rfl | hmem
    · unfold jsMapFind
      simp only [List.map_cons, List.foldl_cons, if_pos rfl]
      exact jsMapFind_foldl_skip tl f.token (some f) fun g hg he =>
        hnd.1 (he ▸ List.mem_map_of_mem (fun x => x.token) hg)
    · have hne : g.token ≠ f.token := fun he =>
        hnd.1 (he ▸ List.mem_map_of_mem (fun x => x.token) hmem)
      unfold jsMapFind at ih ⊢
      simp only [List.map_cons, List.foldl_cons, if_neg hne]
      exact ih hnd.2 hmem

/-- Without a `team` property, no legacy TEAM field is appended. -/
theorem customMetaFieldsOf_no_team (p : Project) (hteam : p.team = []) :
    customMetaFieldsOf p = resolvedCustomFieldsOf p := by
  simp [customMetaFieldsOf, hteam]

/-- With no `meta_field_order` hint, the ordered keys are the base keys
followed by the custom tokens in declared order. -/
theorem orderedMetaKeys_no_order (p : Project) (horder : p.meta_field_order = [])
    (hteam : p.team = [])
    (hnd : ((resolvedCustomFieldsOf p).map fun f => f.token).Nodup) :
    orderedMetaKeysOf p =
      (["location".data, "duration".data, "program".data, "studio".data] : List Str)
        ++ (resolvedCustomFieldsOf p).map fun f => f.token := by
  unfold orderedMetaKeysOf
  rw [horder, customMetaFieldsOf_no_team p hteam]
  simp only [List.foldl_nil]
  have hbase : baseMetaFields.foldl
      (fun acc kv => if decide (kv.1 ∈ acc) then acc else acc ++ [kv.1]) ([] : List Str) =
      ["location".data, "duration".data, "program".data, "studio".data] := by decide
  rw [hbase]
  refine foldl_push_eq_append _ _ hnd ?_
  intro f hf
  obtain ⟨⟨s, hs⟩, _⟩ := resolvedCustomFields_props p f hf
  rw [hs]
  exact custom_token_not_base s

/-- A flat map whose function yields a singleton on every member is a
map. -/
theorem flatMap_eq_map_of_forall {α β : Type} (l : List α) (g : α → List β) (f : α → β)
    (h : ∀ a ∈ l, g a = [f a]) : l.flatMap g = l.map f := by
  induction l with
  | nil => rfl
  | cons a tl ih =>
    rw [List.flatMap_cons, h a (List.mem_cons_self a tl),
      ih fun b hb => h b (List.mem_cons_of_mem a hb), List.map_cons]
    rfl

/-- C4 counterexample: for the record `projC4` (one custom field CLIENT
and a YEAR), the code renders the custom field before YEAR, not after as
the claim's order (base fields, YEAR/MEDIUM/SERIES, then custom fields)
predicts. -/
theorem c4_counterexample :
    renderProjectMeta projC4 =
      [("CLIENT".data, "X".data), ("YEAR".data, "2024".data)] ∧
    specClaimedMetaOrder projC4 =
      [("YEAR".data, "2024".data), ("CLIENT".data, "X".data)] ∧
    renderProjectMeta projC4 ≠ specClaimedMetaOrder projC4 := by
  refine ⟨by decide, by decide, by decide⟩

/-- C4 as amended: for a record with no `meta_field_order` hint, no legacy
`team` property and pairwise distinct custom-field ids, the meta fields
render as LOCATION, DURATION, PROGRAM, STUDIO, then the custom label/value
fields in author-declared order, then YEAR, MEDIUM, SERIES — omitting
every field whose value is empty or absent. -/
theorem c4_amended (p : Project) (horder : p.meta_field_order = [])
    (hteam : p.team = [])
    (hnd : ((resolvedCustomFieldsOf p).map fun f => f.token).Nodup) :
    renderProjectMeta p =
      (baseMetaFields.flatMap fun kv =>
        if baseMetaValue p kv.1 = [] then [] else [(kv.2, baseMetaValue p kv.1)])
      ++ (((resolvedCustomFieldsOf p).map fun f => (f.label, f.value))
      ++ ((if p.year ≠ [] then [("YEAR".data, p.year)] else [])
      ++ ((if p.medium ≠ [] then [("MEDIUM".data, p.medium)] else [])
      ++ (if p.series ≠ [] then [("SERIES".data, p.series)] else [])))) := by
  have hitem : ∀ f ∈ resolvedCustomFieldsOf p,
      renderMetaItem p f.token = [(f.label, f.value)] := by
    intro f hf
    obtain ⟨⟨s, hs⟩, hval⟩ := resolvedCustomFields_props p f hf
    unfold renderMetaItem
    rw [hs, baseMetaLabel_custom_none s, ← hs]
    have hfind : jsMapFind (customMetaFieldMap p) f.token = some f := by
      unfold customMetaFieldMap
      rw [customMetaFieldsOf_no_team p hteam]
      exact jsMapFind_self _ f hnd hf
    rw [hfind]
    dsimp only
    rw [if_neg hval]
  have h1 : (["location".data, "duration".data, "program".data, "studio".data] :
      List Str).flatMap (renderMetaItem p) =
      baseMetaFields.flatMap fun kv =>
        if baseMetaValue p kv.1 = [] then [] else [(kv.2, baseMetaValue p kv.1)] := by
    simp [renderMetaItem, baseMetaLabel, baseMetaFields, List.find?, baseMetaValue]
  have h2 : (((resolvedCustomFieldsOf p).map fun f => f.token).flatMap
      (renderMetaItem p)) = (resolvedCustomFieldsOf p).map fun f => (f.label, f.value) := by
    rw [List.flatMap_map]
    exact flatMap_eq_map_of_forall _ _ _ fun f hf => hitem f hf
  unfold renderProjectMeta
  rw [orderedMetaKeys_no_order p horder hteam hnd]
  rw [List.flatMap_append, h1, h2, List.append_assoc]

/-- Witness for the amended C4 at the record `projC4`. -/
theorem c4_amended_witness :
    projC4.meta_field_order = [] ∧ projC4.team = [] ∧
    ((resolvedCustomFieldsOf projC4).map fun f => f.token).Nodup ∧
    renderProjectMeta projC4 =
      (baseMetaFields.flatMap fun kv =>
        if baseMetaValue projC4 kv.1 = [] then [] else [(kv.2, baseMetaValue projC4 kv.1)])
      ++ (((resolvedCustomFieldsOf projC4).map fun f => (f.label, f.value))
      ++ ((if projC4.year ≠ [] then [("YEAR".data, projC4.year)] else [])
      ++ ((if projC4.medium ≠ [] then [("MEDIUM".data, projC4.medium)] else [])
      ++ (if projC4.series ≠ [] then [("SERIES".data, projC4.series)] else [])))) :=
  ⟨by decide, by decide, by decide,
    c4_amended projC4 (by decide) (by decide) (by decide)⟩

/-- Digit characters are digits. -/
theorem digitChar_digit (d : Nat) : isDigitChar (digitChar d) = true := by
  unfold digitChar
  split <;> decide

/-- Decimal renderings are nonempty. -/
theorem natDigits_ne_nil (n : Nat) : natDigits n ≠ [] := by
  rw [natDigits]
  split
  · simp
  · simp

/-- Decimal renderings consist of digits. -/
theorem natDigits_mem (n : Nat) : ∀ c ∈ natDigits n, isDigitChar c = true := by
  induction n using Nat.strong_induction_on with
  | _ n ih =>
    rw [natDigits]
    split
    · intro c hc
      simp only [List.mem_singleton] at hc
      subst hc
      exact digitChar_digit n
    · intro c hc
      rcases List.mem_append.mp hc with h | h
      · exact ih (n / 10) (Nat.div_lt_self (by omega) (by omega)) c h
      · simp only [List.mem_singleton] at h
        subst h
        exact digitChar_digit (n % 10)

/-- A digit is not a quote (nor a backslash). -/
theorem isDigitChar_ne (c : Char) (h : isDigitChar c = true) : c ≠ '"' ∧ c ≠ '\\' := by
  simp only [isDigitChar, Bool.and_eq_true, decide_eq_true_eq] at h
  constructor <;> intro he <;> subst he <;> revert h <;> decide

/-- No quote occurs in a rendered integer. -/
theorem quote_not_mem_intRender (n : Int) : '"' ∉ intRender n := by
  unfold intRender
  split
  · intro hmem
    rcases List.mem_cons.mp hmem with h | h
    · exact absurd h.symm (by decide)
    · exact absurd rfl (isDigitChar_ne _ (natDigits_mem _ _ h)).1
  · intro hmem
    exact absurd rfl (isDigitChar_ne _ (natDigits_mem _ _ hmem)).1

/-- The scanning pass copies a quote-free prefix verbatim. -/
theorem escapeStringSpans_append_front (a b : Str) (h : '"' ∉ a) :
    escapeStringSpans (a ++ b) = a ++ escapeStringSpans b := by
  induction a with
  | nil => simp
  | cons c tl ih =>
    have hc : ¬c = '"' := fun he => h (he ▸ List.mem_cons_self c tl)
    rw [List.cons_append, escapeStringSpans, if_neg hc,
      ih fun hm => h (List.mem_cons_of_mem c hm)]
    rfl

/-- The regex body match consumes exactly a producer-escaped string body up
to the closing quote (stated on the values, the length certificate
projected away). -/
theorem matchStringBody_relEsc (s rest : Str) :
    (matchStringBody (s.flatMap relEscChar ++ '"' :: rest)).map
      (fun pr => (pr.1, pr.2.1)) = some (s.flatMap relEscChar, rest) := by
  induction s with
  | nil =>
    show (matchStringBody ('"' :: rest)).map (fun pr => (pr.1, pr.2.1)) = some ([], rest)
    cases rest with
    | nil =>
      rw [matchStringBody.eq_def]
      simp
    | cons r rs =>
      rw [matchStringBody.eq_def]
      simp
  | cons c tl ih =>
    cases hx : matchStringBody (tl.flatMap relEscChar ++ '"' :: rest) with
    | none =>
      rw [hx] at ih
      simp at ih
    | some pr =>
      rw [hx] at ih
      obtain ⟨b, r⟩ := pr
      simp only [Option.map_some', Option.some.injEq, Prod.mk.injEq] at ih
      obtain ⟨hb, hr⟩ := ih
      by_cases h1 : c = '"'
      · subst h1
        show (matchStringBody ('\\' :: '"' :: (tl.flatMap relEscChar ++ '"' :: rest))).map _ = _
        rw [matchStringBody]
        simp only [reduceIte, hx]
        simp [hb, hr, relEscChar]
      · by_cases h2 : c = '\\'
        · subst h2
          show (matchStringBody
              ('\\' :: '\\' :: (tl.flatMap relEscChar ++ '"' :: rest))).map _ = _
          rw [matchStringBody]
          simp only [reduceIte, hx]
          simp [hb, hr, relEscChar]
        · have hflat : (c :: tl).flatMap relEscChar = c :: tl.flatMap relEscChar := by
            simp [relEscChar, h1, h2]
          rw [hflat, List.cons_append]
          obtain ⟨d, D, hD⟩ : ∃ d D, tl.flatMap relEscChar ++ '"' :: rest = d :: D := by
            cases he : tl.flatMap relEscChar with
            | nil => exact ⟨'"', rest, by simp⟩
            | cons x xs => exact ⟨x, xs ++ '"' :: rest, by simp⟩
          rw [hD, matchStringBody, if_neg h1, if_neg h2, ← hD, hx]
          simp [hb, hr]

/-- The per-match replacement turns a producer-escaped body into the strict
escaping of the CR-stripped string. -/
theorem transformMatch_relEsc (s : Str) :
    transformMatch (s.flatMap relEscChar) = (stripCRStr s).flatMap strictEscChar := by
  induction s with
  | nil => rfl
  | cons c tl ih =>
    have hstep : transformMatch ((c :: tl).flatMap relEscChar) =
        transformMatch (relEscChar c) ++ transformMatch (tl.flatMap relEscChar) := by
      simp [transformMatch, List.flatMap_append]
    rw [hstep, ih]
    by_cases h1 : c = '"'
    · subst h1
      rfl
    · by_cases h2 : c = '\\'
      · subst h2
        rfl
      · by_cases h3 : c = '\n'
        · subst h3
          rfl
        · by_cases h4 : c = '\r'
          · subst h4
            rfl
          · have hrel : transformMatch (relEscChar c) = [c] := by
              simp [relEscChar, transformMatch, h1, h2, h3, h4]
            have hstrip : stripCRStr (c :: tl) = c :: stripCRStr tl := by
              simp [stripCRStr, h4]
            rw [hrel, hstrip]
            have : (c :: stripCRStr tl).flatMap strictEscChar =
                strictEscChar c ++ (stripCRStr tl).flatMap strictEscChar := by
              simp
            rw [this]
            simp [strictEscChar, h1, h2, h3]

/-- The scanning pass rewrites one rendered string literal into its strict
form and continues after it. -/
theorem escapeStringSpans_string (s rest : Str) :
    escapeStringSpans ('"' :: (s.flatMap relEscChar ++ '"' :: rest)) =
      '"' :: (stripCRStr s).flatMap strictEscChar ++ '"' :: escapeStringSpans rest := by
  have hm := matchStringBody_relEsc s rest
  rw [escapeStringSpans]
  simp only [reduceIte]
  cases hx : matchStringBody (s.flatMap relEscChar ++ '"' :: rest) with
  | none =>
    rw [hx] at hm
    simp at hm
  | some pr =>
    rw [hx] at hm
    obtain ⟨b, r⟩ := pr
    simp only [Option.map_some', Option.some.injEq, Prod.mk.injEq] at hm
    obtain ⟨hb, hr⟩ := hm
    dsimp only
    rw [hb, hr, transformMatch_relEsc]

mutual
/-- The escaping pass turns the relaxed rendering of a value (followed by
any continuation) into the strict rendering of its CR-stripped form. -/
theorem escape_renderRelaxed : ∀ (v : Json) (rest : Str),
    escapeStringSpans (renderJson relEscChar v ++ rest) =
      renderJson strictEscChar (stripCR v) ++ escapeStringSpans rest
  | .null, rest => by
    simp only [renderJson, stripCR]
    rw [escapeStringSpans_append_front _ _ (by decide)]
  | .bool true, rest => by
    simp only [renderJson, stripCR]
    rw [escapeStringSpans_append_front _ _ (by decide)]
  | .bool false, rest => by
    simp only [renderJson, stripCR]
    rw [escapeStringSpans_append_front _ _ (by decide)]
  | .num n, rest => by
    simp only [renderJson, stripCR]
    rw [escapeStringSpans_append_front _ _ (quote_not_mem_intRender n)]
  | .str s, rest => by
    simp only [renderJson, stripCR]
    rw [show ('"' :: s.flatMap relEscChar ++ ['"']) ++ rest =
        '"' :: (s.flatMap relEscChar ++ '"' :: rest) by simp]
    rw [escapeStringSpans_string]
    simp
  | .arr es, rest => by
    simp only [renderJson, stripCR]
    rw [show ('[' :: renderJsonList relEscChar es ++ [']']) ++ rest =
        '[' :: (renderJsonList relEscChar es ++ ']' :: rest) by simp]
    rw [show escapeStringSpans ('[' :: (renderJsonList relEscChar es ++ ']' :: rest)) =
        '[' :: escapeStringSpans (renderJsonList relEscChar es ++ ']' :: rest) from
      escapeStringSpans_append_front ['['] _ (by decide)]
    rw [escape_renderRelaxedList es (']' :: rest)]
    rw [show escapeStringSpans (']' :: rest) = ']' :: escapeStringSpans rest from
      escapeStringSpans_append_front [']'] _ (by decide)]
    simp
  | .obj ms, rest => by
    simp only [renderJson, stripCR]
    rw [show ('{' :: renderJsonMembers relEscChar ms ++ ['}']) ++ rest =
        '{' :: (renderJsonMembers relEscChar ms ++ '}' :: rest) by simp]
    rw [show escapeStringSpans ('{' :: (renderJsonMembers relEscChar ms ++ '}' :: rest)) =
        '{' :: escapeStringSpans (renderJsonMembers relEscChar ms ++ '}' :: rest) from
      escapeStringSpans_append_front ['{'] _ (by decide)]
    rw [escape_renderRelaxedMembers ms ('}' :: rest)]
    rw [show escapeStringSpans ('}' :: rest) = '}' :: escapeStringSpans rest from
      escapeStringSpans_append_front ['}'] _ (by decide)]
    simp
/-- Elementwise version of `escape_renderRelaxed`. -/
theorem escape_renderRelaxedList : ∀ (es : JsonList) (rest : Str),
    escapeStringSpans (renderJsonList relEscChar es ++ rest) =
      renderJsonList strictEscChar (stripCRList es) ++ escapeStringSpans rest
  | .nil, rest => by
    simp only [renderJsonList, stripCRList]
    simp
  | .cons v .nil, rest => by
    simp only [renderJsonList, stripCRList]
    exact escape_renderRelaxed v rest
  | .cons v (.cons w tl), rest => by
    simp only [renderJsonList, stripCRList]
    rw [show (renderJson relEscChar v ++ ',' :: renderJsonList relEscChar (.cons w tl)) ++ rest =
        renderJson relEscChar v ++
          (',' :: (renderJsonList relEscChar (.cons w tl) ++ rest)) by simp]
    rw [escape_renderRelaxed v (',' :: (renderJsonList relEscChar (.cons w tl) ++ rest))]
    rw [show escapeStringSpans
          (',' :: (renderJsonList relEscChar (.cons w tl) ++ rest)) =
        ',' :: escapeStringSpans (renderJsonList relEscChar (.cons w tl) ++ rest) from
      escapeStringSpans_append_front [','] _ (by decide)]
    rw [escape_renderRelaxedList (.cons w tl) rest]
    simp [stripCRList, renderJsonList]
/-- Memberwise version of `escape_renderRelaxed`. -/
theorem escape_renderRelaxedMembers : ∀ (ms : JsonMembers) (rest : Str),
    escapeStringSpans (renderJsonMembers relEscChar ms ++ rest) =
      renderJsonMembers strictEscChar (stripCRMembers ms) ++ escapeStringSpans rest
  | .nil, rest => by
    simp only [renderJsonMembers, stripCRMembers]
    simp
  | .cons k v .nil, rest => by
    simp only [renderJsonMembers, stripCRMembers]
    rw [show ('"' :: k.flatMap relEscChar ++ '"' :: ':' :: renderJson relEscChar v) ++ rest =
        '"' :: (k.flatMap relEscChar ++ '"' ::
          (':' :: (renderJson relEscChar v ++ rest))) by simp]
    rw [escapeStringSpans_string]
    rw [show escapeStringSpans (':' :: (renderJson relEscChar v ++ rest)) =
        ':' :: escapeStringSpans (renderJson relEscChar v ++ rest) from
      escapeStringSpans_append_front [':'] _ (by decide)]
    rw [escape_renderRelaxed v rest]
    simp
  | .cons k v (.cons k2 v2 tl), rest => by
    simp only [renderJsonMembers, stripCRMembers]
    rw [show ('"' :: k.flatMap relEscChar ++ '"' :: ':' :: renderJson relEscChar v ++
          ',' :: renderJsonMembers relEscChar (.cons k2 v2 tl)) ++ rest =
        '"' :: (k.flatMap relEscChar ++ '"' :: (':' :: (renderJson relEscChar v ++
          (',' :: (renderJsonMembers relEscChar (.cons k2 v2 tl) ++ rest))))) by simp]
    rw [escapeStringSpans_string]
    rw [show escapeStringSpans (':' :: (renderJson relEscChar v ++
          (',' :: (renderJsonMembers relEscChar (.cons k2 v2 tl) ++ rest)))) =
        ':' :: escapeStringSpans (renderJson relEscChar v ++
          (',' :: (renderJsonMembers relEscChar (.cons k2 v2 tl) ++ rest))) from
      escapeStringSpans_append_front [':'] _ (by decide)]
    rw [escape_renderRelaxed v
      (',' :: (renderJsonMembers relEscChar (.cons k2 v2 tl) ++ rest))]
    rw [show escapeStringSpans
          (',' :: (renderJsonMembers relEscChar (.cons k2 v2 tl) ++ rest)) =
        ',' :: escapeStringSpans (renderJsonMembers relEscChar (.cons k2 v2 tl) ++ rest) from
      escapeStringSpans_append_front [','] _ (by decide)]
    rw [escape_renderRelaxedMembers (.cons k2 v2 tl) rest]
    simp [stripCRMembers, renderJsonMembers]
end

/-- Whitespace skipping stops at a non-whitespace head. -/
theorem skipWs_cons (c : Char) (l : Str) (h : isJsonWs c = false) :
    skipWs (c :: l) = c :: l := by
  simp [skipWs, List.dropWhile_cons, h]

/-- A digit delimits none of the parser's dispatch characters. -/
theorem isDigitChar_facts (c : Char) (h : isDigitChar c = true) :
    isJsonWs c = false ∧ c ≠ 'n' ∧ c ≠ 't' ∧ c ≠ 'f' ∧ c ≠ '"' ∧ c ≠ '[' ∧ c ≠ '{' ∧
      c ≠ '-' ∧ c ≠ ']' ∧ c ≠ '}' ∧ c ≠ ',' := by
  simp only [isDigitChar, Bool.and_eq_true, decide_eq_true_eq] at h
  obtain ⟨h1, h2⟩ := h
  refine ⟨?_, ?_, ?_, ?_, ?_, ?_, ?_, ?_, ?_, ?_, ?_⟩
  · simp only [isJsonWs, Bool.or_eq_false_iff, decide_eq_false_iff_not]
    refine ⟨⟨⟨?_, ?_⟩, ?_⟩, ?_⟩ <;> intro he <;> subst he <;>
      exact absurd h1 (by decide)
  all_goals intro he
  all_goals subst he
  · exact absurd h2 (by decide)
  · exact absurd h2 (by decide)
  · exact absurd h2 (by decide)
  · exact absurd h1 (by decide)
  · exact absurd h2 (by decide)
  · exact absurd h2 (by decide)
  · exact absurd h1 (by decide)
  · exact absurd h2 (by decide)
  · exact absurd h2 (by decide)
  · exact absurd h1 (by decide)

/-- The digit span of an all-digit prefix followed by an admissible
continuation is exactly that prefix. -/
theorem span_digits (A rest : Str) (hA : ∀ c ∈ A, isDigitChar c = true)
    (hrest : restOk rest) : (A ++ rest).span isDigitChar = (A, rest) := by
  have htail : rest.takeWhile isDigitChar = [] ∧ rest.dropWhile isDigitChar = rest := by
    cases rest with
    | nil => simp
    | cons c cs =>
      simp only [restOk] at hrest
      have hd : isDigitChar c = false := by
        rcases hrest with h | h | h <;> subst h <;> decide
      simp [List.takeWhile_cons, List.dropWhile_cons, hd]
  induction A with
  | nil =>
    simp [List.span_eq_take_drop, htail.1, htail.2]
  | cons a A' ih =>
    have ha : isDigitChar a = true := hA a (List.mem_cons_self a A')
    have ih' := ih fun c hc => hA c (List.mem_cons_of_mem a hc)
    simp only [List.span_eq_take_drop] at ih' ⊢
    rw [Prod.mk.injEq] at ih'
    simp only [List.cons_append, List.takeWhile_cons, List.dropWhile_cons, ha]
    simp [ih'.1, ih'.2]

/-- Value of a digit character within range. -/
theorem digitVal_digitChar (d : Nat) (h : d < 10) : digitVal (digitChar d) = d := by
  interval_cases d <;> decide

/-- Decimal value of an appended digit. -/
theorem digitsVal_append (A : Str) (c : Char) :
    digitsVal (A ++ [c]) = 10 * digitsVal A + digitVal c := by
  simp [digitsVal, List.foldl_append]

/-- Reading back a decimal rendering. -/
theorem digitsVal_natDigits (n : Nat) : digitsVal (natDigits n) = n := by
  induction n using Nat.strong_induction_on with
  | _ n ih =>
    rw [natDigits]
    split
    · simp only [digitsVal, List.foldl_cons, List.foldl_nil]
      rw [digitVal_digitChar n (by omega)]
      omega
    · rw [digitsVal_append, ih (n / 10) (Nat.div_lt_self (by omega) (by omega)),
        digitVal_digitChar (n % 10) (by omega)]
      omega

/-- The string-literal parser reads back a strict rendering. -/
theorem parseStringLit_strictEsc (s : Str) (hs : strOkS s = true) (rest : Str) :
    parseStringLit (s.flatMap strictEscChar ++ '"' :: rest) = some (s, rest) := by
  induction s with
  | nil =>
    show parseStringLit ('"' :: rest) = some ([], rest)
    rw [parseStringLit.eq_def]
    simp
  | cons c tl ih =>
    simp only [strOkS, List.all_cons, Bool.and_eq_true] at hs
    obtain ⟨hc, htl⟩ := hs
    have ihtl := ih htl
    by_cases h1 : c = '"'
    · subst h1
      show parseStringLit ('\\' :: '"' :: (tl.flatMap strictEscChar ++ '"' :: rest)) = _
      rw [parseStringLit.eq_def]
      simp only [reduceIte, escCharFor, ihtl]
      try simp
    · by_cases h2 : c = '\\'
      · subst h2
        show parseStringLit ('\\' :: '\\' :: (tl.flatMap strictEscChar ++ '"' :: rest)) = _
        rw [parseStringLit.eq_def]
        simp only [reduceIte, escCharFor, ihtl]
        try simp
      · by_cases h3 : c = '\n'
        · subst h3
          show parseStringLit ('\\' :: 'n' :: (tl.flatMap strictEscChar ++ '"' :: rest)) = _
          rw [parseStringLit.eq_def]
          simp only [reduceIte, escCharFor, ihtl]
          try simp
        · have h32 : ¬c.toNat < 32 := by
            simp only [strOkCharS, Bool.or_eq_true, decide_eq_true_eq] at hc
            rcases hc with h | h
            · omega
            · exact absurd h h3
          have hflat : (c :: tl).flatMap strictEscChar ++ '"' :: rest =
              c :: (tl.flatMap strictEscChar ++ '"' :: rest) := by
            simp [strictEscChar, h1, h2, h3]
          rw [hflat, parseStringLit.eq_def]
          simp only [if_neg h1, if_neg h2, if_neg h32, ihtl]
          try simp

/-- The head of a strict rendering: a non-whitespace character that closes
nothing. -/
theorem renderJson_strict_shape (v : Json) :
    ∃ c cs, renderJson strictEscChar v = c :: cs ∧ isJsonWs c = false ∧
      c ≠ ']' ∧ c ≠ '}' := by
  cases v with
  | null =>
    exact ⟨'n', "ull".data, by rw [renderJson], by decide, by decide, by decide⟩
  | bool b =>
    cases b with
    | true => exact ⟨'t', "rue".data, by rw [renderJson], by decide, by decide, by decide⟩
    | false => exact ⟨'f', "alse".data, by rw [renderJson], by decide, by decide, by decide⟩
  | num n =>
    by_cases hn : n < 0
    · refine ⟨'-', natDigits n.natAbs, ?_, by decide, by decide, by decide⟩
      rw [renderJson, intRender, if_pos hn]
    · obtain ⟨d, ds, hds⟩ := List.exists_cons_of_ne_nil (natDigits_ne_nil n.toNat)
      have hd : isDigitChar d = true := natDigits_mem n.toNat d (by rw [hds]; simp)
      obtain ⟨hws, _, _, _, _, _, _, _, hbr, hbc, _⟩ := isDigitChar_facts d hd
      refine ⟨d, ds, ?_, hws, hbr, hbc⟩
      rw [renderJson, intRender, if_neg hn, hds]
  | str s =>
    exact ⟨'"', s.flatMap strictEscChar ++ ['"'], by rw [renderJson]; rfl, by decide,
      by decide, by decide⟩
  | arr es =>
    exact ⟨'[', renderJsonList strictEscChar es ++ [']'], by rw [renderJson]; rfl, by decide,
      by decide, by decide⟩
  | obj ms =>
    exact ⟨'{', renderJsonMembers strictEscChar ms ++ ['}'], by rw [renderJson]; rfl, by decide,
      by decide, by decide⟩

/-- Parser fuel is positive on any value. -/
theorem jsize_pos (v : Json) : 1 ≤ jsize v := by
  cases v with
  | null => simp only [jsize]; omega
  | bool b => simp only [jsize]; omega
  | num n => simp only [jsize]; omega
  | str s => simp only [jsize]; omega
  | arr es =>
    cases es with
    | nil => simp only [jsize]; omega
    | cons v tl => simp only [jsize]; omega
  | obj ms =>
    cases ms with
    | nil => simp only [jsize]; omega
    | cons k v tl => simp only [jsize]; omega

/-- The fueled parser reads back every strict rendering: values, array
element lists and object member lists. -/
theorem parse_render_ok : ∀ fuel : Nat,
    (∀ (v : Json) (rest : Str), jsonOkS v = true → jsize v ≤ fuel → restOk rest →
      parseValue fuel (renderJson strictEscChar v ++ rest) = some (v, rest)) ∧
    (∀ (es : JsonList) (rest : Str), es ≠ .nil → jsonOkSList es = true →
      lsize es + 1 ≤ fuel →
      parseElems fuel (renderJsonList strictEscChar es ++ ']' :: rest) = some (es, rest)) ∧
    (∀ (ms : JsonMembers) (rest : Str), ms ≠ .nil → jsonOkSMembers ms = true →
      msize ms + 1 ≤ fuel →
      parseMembers fuel (renderJsonMembers strictEscChar ms ++ '}' :: rest) = some (ms, rest)) := by
  intro fuel
  induction fuel with
  | zero =>
    refine ⟨?_, ?_, ?_⟩
    · intro v rest _ hsz _
      have := jsize_pos v
      omega
    · intro es rest _ _ hsz
      omega
    · intro ms rest _ _ hsz
      omega
  | succ n ih =>
    obtain ⟨ihv, ihe, ihm⟩ := ih
    refine ⟨?_, ?_, ?_⟩
    · intro v rest hok hsz hrest
      cases v with
      | null =>
        rw [renderJson, parseValue]
        rw [show ("null".data ++ rest : Str) = 'n' :: ('u' :: 'l' :: 'l' :: rest) from rfl]
        rw [skipWs_cons _ _ (by decide)]
        simp
      | bool b =>
        cases b with
        | true =>
          rw [renderJson, parseValue]
          rw [show ("true".data ++ rest : Str) = 't' :: ('r' :: 'u' :: 'e' :: rest) from rfl]
          rw [skipWs_cons _ _ (by decide)]
          simp
        | false =>
          rw [renderJson, parseValue]
          rw [show ("false".data ++ rest : Str) =
            'f' :: ('a' :: 'l' :: 's' :: 'e' :: rest) from rfl]
          rw [skipWs_cons _ _ (by decide)]
          simp
      | num m =>
        rw [renderJson]
        by_cases hn : m < 0
        · rw [intRender, if_pos hn, parseValue]
          rw [show ('-' :: natDigits m.natAbs) ++ rest =
            '-' :: (natDigits m.natAbs ++ rest) from rfl]
          rw [skipWs_cons _ _ (by decide)]
          try dsimp only
          try simp only [Char.reduceEq, reduceIte]
          rw [span_digits (natDigits m.natAbs) rest (natDigits_mem _) hrest]
          obtain ⟨d, ds, hds⟩ := List.exists_cons_of_ne_nil (natDigits_ne_nil m.natAbs)
          rw [hds]
          try dsimp only
          rw [← hds, digitsVal_natDigits]
          have hm : -((m.natAbs : Nat) : Int) = m := by omega
          rw [hm]
        · rw [intRender, if_neg hn, parseValue]
          obtain ⟨d, ds, hds⟩ := List.exists_cons_of_ne_nil (natDigits_ne_nil m.toNat)
          have hd : isDigitChar d = true := natDigits_mem m.toNat d (by rw [hds]; simp)
          obtain ⟨hws, hd1, hd2, hd3, hd4, hd5, hd6, hd7, _, _, _⟩ := isDigitChar_facts d hd
          rw [hds]
          rw [show (d :: ds) ++ rest = d :: (ds ++ rest) from rfl]
          rw [skipWs_cons _ _ hws]
          try dsimp only
          rw [if_neg (by simpa using hd1), if_neg (by simpa using hd2),
            if_neg (by simpa using hd3), if_neg (by simpa using hd4),
            if_neg (by simpa using hd5), if_neg (by simpa using hd6),
            if_neg (by simpa using hd7), if_pos hd]
          rw [show d :: (ds ++ rest) = (d :: ds) ++ rest from rfl]
          rw [span_digits (d :: ds) rest (by rw [← hds]; exact natDigits_mem _) hrest]
          try dsimp only
          rw [← hds, digitsVal_natDigits]
          have hm : ((m.toNat : Nat) : Int) = m := by omega
          rw [hm]
      | str s =>
        rw [renderJson]
        rw [show ('"' :: s.flatMap strictEscChar ++ ['"']) ++ rest =
            '"' :: (s.flatMap strictEscChar ++ '"' :: rest) from by simp]
        rw [parseValue, skipWs_cons _ _ (by decide)]
        dsimp only
        simp only [Char.reduceEq, reduceIte]
        rw [parseStringLit_strictEsc s (by simpa [jsonOkS] using hok) rest]
      | arr es =>
        cases es with
        | nil =>
          rw [renderJson]
          rw [show ('[' :: renderJsonList strictEscChar .nil ++ [']']) ++ rest =
              '[' :: (']' :: rest) from by rw [renderJsonList]; rfl]
          rw [parseValue, skipWs_cons _ _ (by decide)]
          try dsimp only
          simp only [Char.reduceEq, reduceIte]
          rw [skipWs_cons _ _ (by decide)]
          simp
        | cons v tl =>
          simp only [jsonOkS] at hok
          simp only [jsize] at hsz
          rw [renderJson]
          rw [show ('[' :: renderJsonList strictEscChar (.cons v tl) ++ [']']) ++ rest =
              '[' :: (renderJsonList strictEscChar (.cons v tl) ++ ']' :: rest) from by simp]
          rw [parseValue, skipWs_cons _ _ (by decide)]
          try dsimp only
          simp only [Char.reduceEq, reduceIte]
          obtain ⟨c0, cs0, hr0, hws0, hc0r, hc0c⟩ := renderJson_strict_shape v
          have hT : ∃ T, renderJsonList strictEscChar (.cons v tl) = c0 :: T := by
            cases tl with
            | nil => exact ⟨cs0, by rw [renderJsonList, hr0]⟩
            | cons w tl2 =>
              exact ⟨cs0 ++ ',' :: renderJsonList strictEscChar (.cons w tl2),
                by rw [renderJsonList, hr0]; rfl⟩
          obtain ⟨T, hT⟩ := hT
          rw [hT, List.cons_append, skipWs_cons _ _ hws0]
          rw [if_neg (by simp [hc0r])]
          rw [show c0 :: (T ++ ']' :: rest) = (c0 :: T) ++ ']' :: rest from rfl, ← hT]
          rw [ihe (.cons v tl) rest (by intro h; cases h) hok (by omega)]
      | obj ms =>
        cases ms with
        | nil =>
          rw [renderJson]
          rw [show ('{' :: renderJsonMembers strictEscChar .nil ++ ['}']) ++ rest =
              '{' :: ('}' :: rest) from by rw [renderJsonMembers]; rfl]
          rw [parseValue, skipWs_cons _ _ (by decide)]
          try dsimp only
          simp only [Char.reduceEq, reduceIte]
          rw [skipWs_cons _ _ (by decide)]
          simp
        | cons k v tl =>
          simp only [jsonOkS] at hok
          simp only [jsize] at hsz
          rw [renderJson]
          rw [show ('{' :: renderJsonMembers strictEscChar (.cons k v tl) ++ ['}']) ++ rest =
              '{' :: (renderJsonMembers strictEscChar (.cons k v tl) ++ '}' :: rest) from by
            simp]
          rw [parseValue, skipWs_cons _ _ (by decide)]
          try dsimp only
          simp only [Char.reduceEq, reduceIte]
          have hT : ∃ T, renderJsonMembers strictEscChar (.cons k v tl) = '"' :: T := by
            cases tl with
            | nil => exact ⟨_, by rw [renderJsonMembers]; rfl⟩
            | cons k2 v2 tl2 => exact ⟨_, by rw [renderJsonMembers]; rfl⟩
          obtain ⟨T, hT⟩ := hT
          rw [hT, List.cons_append, skipWs_cons _ _ (by decide)]
          rw [if_neg (by simp)]
          rw [show '"' :: (T ++ '}' :: rest) = ('"' :: T) ++ '}' :: rest from rfl, ← hT]
          rw [ihm (.cons k v tl) rest (by intro h; cases h) hok (by omega)]
    · intro es rest hne hok hsz
      cases es with
      | nil => exact absurd rfl hne
      | cons v tl =>
        simp only [jsonOkSList, Bool.and_eq_true] at hok
        obtain ⟨hokv, hoktl⟩ := hok
        simp only [lsize] at hsz
        cases tl with
        | nil =>
          rw [renderJsonList, parseElems]
          rw [ihv v (']' :: rest) hokv (by omega) (by simp [restOk])]
          try dsimp only
          rw [skipWs_cons _ _ (by decide)]
          simp
        | cons w tl2 =>
          rw [show renderJsonList strictEscChar (.cons v (.cons w tl2)) ++ ']' :: rest =
              renderJson strictEscChar v ++
                (',' :: (renderJsonList strictEscChar (.cons w tl2) ++ ']' :: rest)) from by
            rw [renderJsonList]; simp]
          rw [parseElems]
          rw [ihv v _ hokv (by simp only [lsize] at hsz ⊢; omega) (by simp [restOk])]
          try dsimp only
          rw [skipWs_cons _ _ (by decide)]
          try dsimp only
          try simp only [Char.reduceEq, reduceIte]
          rw [ihe (.cons w tl2) rest (by intro h; cases h) hoktl
            (by simp only [lsize] at hsz ⊢; omega)]
    · intro ms rest hne hok hsz
      cases ms with
      | nil => exact absurd rfl hne
      | cons k v tl =>
        simp only [jsonOkSMembers, Bool.and_eq_true] at hok
        obtain ⟨⟨hokk, hokv⟩, hoktl⟩ := hok
        simp only [msize] at hsz
        cases tl with
        | nil =>
          rw [show renderJsonMembers strictEscChar (.cons k v .nil) ++ '}' :: rest =
              '"' :: (k.flatMap strictEscChar ++ '"' ::
                (':' :: (renderJson strictEscChar v ++ '}' :: rest))) from by
            rw [renderJsonMembers]; simp]
          rw [parseMembers, skipWs_cons _ _ (by decide)]
          try dsimp only
          rw [parseStringLit_strictEsc k hokk _]
          try dsimp only
          rw [skipWs_cons _ _ (by decide)]
          try dsimp only
          try simp only [Char.reduceEq, reduceIte]
          rw [ihv v _ hokv (by omega) (by simp [restOk])]
          try dsimp only
          rw [skipWs_cons _ _ (by decide)]
          simp
        | cons k2 v2 tl2 =>
          rw [show renderJsonMembers strictEscChar (.cons k v (.cons k2 v2 tl2)) ++
                '}' :: rest =
              '"' :: (k.flatMap strictEscChar ++ '"' ::
                (':' :: (renderJson strictEscChar v ++
                  (',' :: (renderJsonMembers strictEscChar (.cons k2 v2 tl2) ++
                    '}' :: rest))))) from by
            rw [renderJsonMembers]; simp]
          rw [parseMembers, skipWs_cons _ _ (by decide)]
          try dsimp only
          rw [parseStringLit_strictEsc k hokk _]
          try dsimp only
          rw [skipWs_cons _ _ (by decide)]
          try dsimp only
          try simp only [Char.reduceEq, reduceIte]
          rw [ihv v _ hokv (by simp only [msize] at hsz ⊢; omega) (by simp [restOk])]
          try dsimp only
          rw [skipWs_cons _ _ (by decide)]
          try dsimp only
          try simp only [Char.reduceEq, reduceIte]
          rw [ihm (.cons k2 v2 tl2) rest (by intro h; cases h) hoktl
            (by simp only [msize] at hsz ⊢; omega)]

mutual
/-- Length-based fuel suffices for a value. -/
theorem jsize_le_len : ∀ v : Json, jsize v ≤ (renderJson strictEscChar v).length + 1
  | .null => by simp only [jsize]; omega
  | .bool b => by simp only [jsize]; omega
  | .num n => by simp only [jsize]; omega
  | .str s => by simp only [jsize]; omega
  | .arr .nil => by simp only [jsize]; omega
  | .arr (.cons v tl) => by
    rw [renderJson]
    simp only [jsize]
    have h := lsize_le_len (.cons v tl)
    simp only [List.length_append, List.length_cons]
    omega
  | .obj .nil => by simp only [jsize]; omega
  | .obj (.cons k v tl) => by
    rw [renderJson]
    simp only [jsize]
    have h := msize_le_len (.cons k v tl)
    simp only [List.length_append, List.length_cons]
    omega
/-- Length-based fuel suffices for array elements. -/
theorem lsize_le_len : ∀ es : JsonList,
    lsize es ≤ (renderJsonList strictEscChar es).length + 1
  | .nil => by simp only [lsize]; omega
  | .cons v .nil => by
    rw [renderJsonList]
    simp only [lsize]
    have h := jsize_le_len v
    omega
  | .cons v (.cons w tl) => by
    rw [renderJsonList]
    simp only [lsize]
    have h1 := jsize_le_len v
    have h2 := lsize_le_len (.cons w tl)
    simp only [lsize] at h2
    simp only [List.length_append, List.length_cons]
    omega
/-- Length-based fuel suffices for object members. -/
theorem msize_le_len : ∀ ms : JsonMembers,
    msize ms ≤ (renderJsonMembers strictEscChar ms).length + 1
  | .nil => by simp only [msize]; omega
  | .cons k v .nil => by
    rw [renderJsonMembers]
    simp only [msize]
    have h := jsize_le_len v
    simp only [List.length_append, List.length_cons]
    omega
  | .cons k v (.cons k2 v2 tl) => by
    rw [renderJsonMembers]
    simp only [msize]
    have h1 := jsize_le_len v
    have h2 := msize_le_len (.cons k2 v2 tl)
    simp only [msize] at h2
    simp only [List.length_append, List.length_cons]
    omega
end

/-- CR deletion makes an admissible string strictly admissible. -/
theorem strOkS_stripCR (s : Str) (h : strOk s = true) : strOkS (stripCRStr s) = true := by
  simp only [strOk, List.all_eq_true] at h
  simp only [strOkS, List.all_eq_true, stripCRStr]
  intro c hc
  obtain ⟨hcs, hcr⟩ := List.mem_filter.mp hc
  have := h c hcs
  simp only [strOkChar, Bool.or_eq_true, decide_eq_true_eq] at this
  simp only [decide_eq_true_eq] at hcr
  simp only [strOkCharS, Bool.or_eq_true, decide_eq_true_eq]
  rcases this with (h1 | h1) | h1
  · left; omega
  · right; exact h1
  · exact absurd h1 hcr

mutual
/-- CR deletion makes an admissible value strictly admissible. -/
theorem jsonOkS_stripCR : ∀ v : Json, jsonOk v = true → jsonOkS (stripCR v) = true
  | .null, _ => rfl
  | .bool _, _ => rfl
  | .num _, _ => rfl
  | .str s, h => by
    rw [stripCR]
    simp only [jsonOkS] at h ⊢
    exact strOkS_stripCR s (by simpa [jsonOk] using h)
  | .arr es, h => by
    rw [stripCR]
    simp only [jsonOkS]
    exact jsonOkS_stripCRList es (by simpa [jsonOk] using h)
  | .obj ms, h => by
    rw [stripCR]
    simp only [jsonOkS]
    exact jsonOkS_stripCRMembers ms (by simpa [jsonOk] using h)
/-- Elementwise `jsonOkS_stripCR`. -/
theorem jsonOkS_stripCRList : ∀ es : JsonList,
    jsonOkList es = true → jsonOkSList (stripCRList es) = true
  | .nil, _ => rfl
  | .cons v tl, h => by
    rw [stripCRList]
    simp only [jsonOkList, Bool.and_eq_true] at h
    simp only [jsonOkSList, Bool.and_eq_true]
    exact ⟨jsonOkS_stripCR v h.1, jsonOkS_stripCRList tl h.2⟩
/-- Memberwise `jsonOkS_stripCR`. -/
theorem jsonOkS_stripCRMembers : ∀ ms : JsonMembers,
    jsonOkMembers ms = true → jsonOkSMembers (stripCRMembers ms) = true
  | .nil, _ => rfl
  | .cons k v tl, h => by
    rw [stripCRMembers]
    simp only [jsonOkMembers, Bool.and_eq_true] at h
    simp only [jsonOkSMembers, Bool.and_eq_true]
    exact ⟨⟨strOkS_stripCR k h.1.1, jsonOkS_stripCR v h.1.2⟩, jsonOkS_stripCRMembers tl h.2⟩
end

/-- C6: a payload that is well-formed JSON except for raw newlines (and
raw carriage returns) inside quoted string values — i.e. the relaxed
rendering of a value whose strings carry no other control characters —
parses successfully through `init`'s escape-then-decode pipeline, yielding
the value with every literal newline preserved in its string fields; raw
carriage returns inside strings are deleted by the escape pass rather than
failing the decode (`stripCR` is the identity on CR-free values). -/
theorem c6_parse_escaped_newlines (v : Json) (h : jsonOk v = true) :
    initParseProjectsPayload (renderRelaxed v) = some (stripCR v) := by
  unfold initParseProjectsPayload renderRelaxed jsonParse
  have hesc : escapeStringSpans (renderJson relEscChar v) =
      renderJson strictEscChar (stripCR v) := by
    have h0 := escape_renderRelaxed v []
    rw [List.append_nil] at h0
    rw [h0, escapeStringSpans]
    simp
  rw [hesc]
  have hmain := (parse_render_ok ((renderJson strictEscChar (stripCR v)).length + 1)).1
  have hok' : jsonOkS (stripCR v) = true := jsonOkS_stripCR v h
  have hsz : jsize (stripCR v) ≤ (renderJson strictEscChar (stripCR v)).length + 1 :=
    jsize_le_len (stripCR v)
  have hparse := hmain (stripCR v) [] hok' hsz (by simp [restOk])
  rw [List.append_nil] at hparse
  rw [hparse]
  simp [skipWs]

/-- Witness for C6: a concrete record list whose title field carries a raw
newline round-trips through the escape-then-decode pipeline with the
newline preserved (the value is CR-free, so it is returned unchanged). -/
theorem c6_parse_escaped_newlines_witness :
    jsonOk vC6 = true ∧
    initParseProjectsPayload (renderRelaxed vC6) = some (stripCR vC6) :=
  ⟨by decide, c6_parse_escaped_newlines vC6 (by decide)⟩

end Portfolio
